import Mathlib

/-!
Shallow embedding of the ledger and referral engine of the
grow-earn Telegram bot (`src/bot.js`), together with proofs of the
spec's testable properties.

Monetary amounts (JS numbers used as decimals) are modelled as `ℚ`.
Mongo documents become Lean structures; a collection is a `List`;
`updateOne` is `updateFirst` (update the first matching document);
`findOne` is `List.find?`.  Fields that Mongo `$unset` removes and the
code reads back with `|| 0` / truthiness are modelled with their falsy
default (`0` for `balanceLocked`, `false` for the awaiting flags,
`none` for drafts), which is observationally identical to the source.
-/

namespace GrowEarn

/-- Withdrawal lifecycle status (`status` strings in `withdrawalsCol`). -/
inductive WStatus
  | pending
  | paid
  | cancelled
deriving DecidableEq, Repr

/-- Pending-referral lifecycle status (`status` strings in `pendingCol`). -/
inductive PRStatus
  | pending
  | confirmed
  | invalid
deriving DecidableEq, Repr

/-- A document of `usersCol` (`ensureUserProfile` shape, bot.js:106-117),
restricted to the fields the ledger reads or writes.  `balanceLocked = 0`
models the field being unset (the code guards with
`user.balanceLocked && user.balanceLocked > 0` and reads it back with
`u.balanceLocked || 0`, so `0` and absent are indistinguishable). -/
structure User where
  telegramId : Nat
  referralCode : String
  balance : ℚ
  confirmedReferrals : Nat
  primaryUPI : Option String := none
  needsUpiSetup : Bool := true
  balanceLocked : ℚ := 0
  lastWithdrawAt : Option Nat := none
  awaitingUpiSetup : Bool := false
  draftUpiSetup : Option String := none
  awaitingWithdrawUPI : Bool := false
  awaitingWithdrawUPIConfirm : Bool := false
  draftWithdrawUPI : Option String := none
  awaitingSupportMessage : Bool := false
deriving DecidableEq, Repr

/-- A document of `pendingCol` (inserted at bot.js:579-585). -/
structure PendingReferral where
  id : Nat
  referredId : Nat
  referrerId : Nat
  referralCode : String
  createdAt : Nat
  status : PRStatus
  reason : Option String := none
  confirmedAt : Option Nat := none
deriving DecidableEq, Repr

/-- A document of `withdrawalsCol` (inserted at bot.js:765-771). -/
structure Withdrawal where
  id : Nat
  userId : Nat
  upi : String
  amount : ℚ
  requestedAt : Nat
  status : WStatus
  paidAt : Option Nat := none
  paidBy : Option Nat := none
  cancelledAt : Option Nat := none
deriving DecidableEq, Repr

/-- A document of `refsCol` (inserted at bot.js:1320-1325). -/
structure ConfirmedReferral where
  referrerId : Nat
  referredId : Nat
  referralCode : String
  confirmedAt : Nat
deriving DecidableEq, Repr

/-- The persisted state: the four ledger collections.  `nextId` generates
fresh document ids (Mongo ObjectIds). -/
structure DB where
  users : List User
  pendings : List PendingReferral
  withdrawals : List Withdrawal
  refs : List ConfirmedReferral
  nextId : Nat := 0
deriving DecidableEq, Repr

/-- Mongo `updateOne`: apply `f` to the first document matching `p`. -/
def updateFirst (p : α → Bool) (f : α → α) : List α → List α
  | [] => []
  | a :: l => if p a then f a :: l else a :: updateFirst p f l

/-- Model: `usersCol.findOne({telegramId: uid})`. -/
def findUser (db : DB) (uid : Nat) : Option User :=
  db.users.find? (fun u => u.telegramId == uid)

/-- Model: `usersCol.updateOne({telegramId: uid}, ...)`. -/
def updUser (db : DB) (uid : Nat) (f : User → User) : DB :=
  { db with users := updateFirst (fun u => u.telegramId == uid) f db.users }

/-- Model: `withdrawalsCol.updateOne({_id: wid}, ...)`. -/
def updWithdrawal (db : DB) (wid : Nat) (f : Withdrawal → Withdrawal) : DB :=
  { db with withdrawals := updateFirst (fun w => w.id == wid) f db.withdrawals }

/-- Model: `pendingCol.updateOne({_id: pid}, ...)` — note the filter is the id
alone, with no condition on the current status. -/
def updPending (db : DB) (pid : Nat) (f : PendingReferral → PendingReferral) : DB :=
  { db with pendings := updateFirst (fun p => p.id == pid) f db.pendings }

/-- One `createIndex` call of `connectDB` (bot.js:83-87). -/
structure IndexSpec where
  coll : String
  keyName : String
  uniq : Bool
deriving DecidableEq, Repr

/-- The exact list of indexes `connectDB` creates (bot.js:83-87). -/
def connectDBIndexes : List IndexSpec :=
  [ ⟨"users", "telegramId", true⟩,
    ⟨"users", "referralCode", true⟩,
    ⟨"pending", "createdAt", false⟩,
    ⟨"withdrawals", "status", false⟩,
    ⟨"requiredChannels", "chatId", true⟩ ]

/-- One character of the `\w.\-` class of `UPI_REGEX` (bot.js:56). -/
def isUpiWordChar (c : Char) : Bool :=
  c.isAlphanum || c == '_' || c == '.' || c == '-'

/-- Model: `UPI_REGEX.test`: `^[\w.\-]{2,}@[a-zA-Z]{2,}$` (bot.js:56).  Neither
character class contains `@`, so a match has exactly one `@`. -/
def upiValid (s : String) : Bool :=
  match s.splitOn "@" with
  | [localPart, domain] =>
      decide (2 ≤ localPart.length) && localPart.all isUpiWordChar &&
      decide (2 ≤ domain.length) && domain.all (fun c => c.isAlpha)
  | _ => false

/-- Model: `ensureUserProfile` (bot.js:100-136): insert a fresh profile when the
identity is unknown (profile-refresh of cosmetic fields elided). -/
def ensureUserProfile (db : DB) (uid : Nat) (newCode : String) : DB :=
  match findUser db uid with
  | some _ => db
  | none =>
      { db with users := db.users ++
          [{ telegramId := uid, referralCode := newCode,
             balance := 0, confirmedReferrals := 0 }] }

/-- Model: `bot.start` referral handling (bot.js:560-607): ensure the profile,
then, when the payload is a referral code of another user and no pending
or confirmed referral for this identity exists, store a PendingReferral;
otherwise store nothing. -/
def handleStart (db0 : DB) (fromId : Nat) (newCode : String)
    (payload : String) (now : Nat) : DB :=
  let db := ensureUserProfile db0 fromId newCode
  if payload.startsWith "ref_" then
    match db.users.find? (fun u => u.referralCode == payload) with
    | none => db
    | some referrer =>
        if referrer.telegramId ≠ fromId then
          if (db.pendings.find? (fun p => p.referredId == fromId)).isSome ||
             (db.refs.find? (fun r => r.referredId == fromId)).isSome then
            db
          else
            { db with
              pendings := db.pendings ++
                [{ id := db.nextId, referredId := fromId,
                   referrerId := referrer.telegramId, referralCode := payload,
                   createdAt := now, status := .pending }],
              nextId := db.nextId + 1 }
        else db
  else db

/-- Model: `startWithdrawFlow` (bot.js:471-508): reject when a lock is
outstanding or the balance is under the minimum; otherwise lock the whole
balance and enter the withdrawal dialogue. -/
def startWithdrawFlow (minW : ℚ) (now : Nat) (db : DB) (uid : Nat) : DB :=
  match findUser db uid with
  | none => db
  | some u =>
      if 0 < u.balanceLocked then db
      else if u.balance < minW then db
      else
        updUser db uid (fun v =>
          { v with
            awaitingWithdrawUPI := true
            balanceLocked := u.balance
            lastWithdrawAt := some now
            awaitingWithdrawUPIConfirm := u.primaryUPI.isSome
            draftWithdrawUPI := u.primaryUPI
            balance := v.balance - u.balance })

/-- Model: `startUpiSetup` (bot.js:510-522): unconditionally enter the
payout-target dialogue; no other field is touched. -/
def startUpiSetup (db : DB) (uid : Nat) : DB :=
  updUser db uid (fun v =>
    { v with awaitingUpiSetup := true, draftUpiSetup := none })

/-- Model: `bot.action("SUPPORT")` (bot.js:872-880): unconditionally enter the
support dialogue. -/
def startSupportIntake (db : DB) (uid : Nat) : DB :=
  updUser db uid (fun v => { v with awaitingSupportMessage := true })

/-- Model: `bot.on("text")` (bot.js:681-845): the intent state machine.  The
branches are checked in source order: UPI setup, then withdrawal
dialogue, then support intake; an unknown user gets a fresh profile. -/
def handleText (db : DB) (uid : Nat) (msg : String) (now : Nat)
    (newCode : String) : DB :=
  match findUser db uid with
  | none => ensureUserProfile db uid newCode
  | some u =>
      let lower := msg.toLower
      if u.awaitingUpiSetup then
        if lower == "cancel" then
          updUser db uid (fun v =>
            { v with awaitingUpiSetup := false, draftUpiSetup := none })
        else if lower == "confirm" then
          match u.draftUpiSetup with
          | none => db
          | some d =>
              updUser db uid (fun v =>
                { v with primaryUPI := some d, needsUpiSetup := false,
                         awaitingUpiSetup := false, draftUpiSetup := none })
        else if upiValid msg then
          updUser db uid (fun v => { v with draftUpiSetup := some msg })
        else db
      else if u.awaitingWithdrawUPI then
        if lower == "cancel" then
          updUser db uid (fun v =>
            { v with balance := v.balance + u.balanceLocked,
                     awaitingWithdrawUPI := false,
                     awaitingWithdrawUPIConfirm := false,
                     draftWithdrawUPI := none, balanceLocked := 0 })
        else if lower == "confirm" then
          if u.awaitingWithdrawUPIConfirm && u.draftWithdrawUPI.isSome then
            let amount := u.balanceLocked
            let upi := u.draftWithdrawUPI.getD ""
            let db1 :=
              { db with
                withdrawals := db.withdrawals ++
                  [{ id := db.nextId, userId := uid, upi := upi,
                     amount := amount, requestedAt := now,
                     status := .pending }],
                nextId := db.nextId + 1 }
            updUser db1 uid (fun v =>
              { v with awaitingWithdrawUPI := false,
                       awaitingWithdrawUPIConfirm := false,
                       draftWithdrawUPI := none,
                       primaryUPI := some upi, needsUpiSetup := false })
          else db
        else if upiValid msg then
          updUser db uid (fun v =>
            { v with draftWithdrawUPI := some msg,
                     awaitingWithdrawUPIConfirm := true })
        else db
      else if u.awaitingSupportMessage then
        updUser db uid (fun v => { v with awaitingSupportMessage := false })
      else db

/-- Result of the admin settle/cancel commands. -/
inductive WdResult
  | ok
  | notFound
deriving DecidableEq, Repr

/-- State, result and whether the user was notified. -/
structure WdOutcome where
  db : DB
  result : WdResult
  notified : Bool
deriving DecidableEq, Repr

/-- Model: `bot.command("pay")` (bot.js:1145-1173): `findOne({_id, status:
"pending"})`; on a miss reply "Not found." and change nothing; on a hit
mark the withdrawal paid, stamp `paidAt`/`paidBy`, `$unset` the user's
`balanceLocked` and notify the user. -/
def payCommand (db : DB) (wid : Nat) (adminId : Nat) (now : Nat) : WdOutcome :=
  match db.withdrawals.find?
      (fun w => w.id == wid && w.status == WStatus.pending) with
  | none => ⟨db, .notFound, false⟩
  | some w =>
      let db1 := updWithdrawal db w.id (fun x =>
        { x with status := .paid, paidAt := some now, paidBy := some adminId })
      ⟨updUser db1 w.userId (fun v => { v with balanceLocked := 0 }), .ok, true⟩

/-- Model: `bot.command("cancelwithdraw")` (bot.js:1175-1202): on a pending hit,
mark cancelled, `$inc` the balance by the withdrawal amount and `$unset`
the lock. -/
def cancelWithdrawCommand (db : DB) (wid : Nat) (now : Nat) : WdOutcome :=
  match db.withdrawals.find?
      (fun w => w.id == wid && w.status == WStatus.pending) with
  | none => ⟨db, .notFound, false⟩
  | some w =>
      let db1 := updWithdrawal db w.id (fun x =>
        { x with status := .cancelled, cancelledAt := some now })
      ⟨updUser db1 w.userId (fun v =>
          { v with balance := v.balance + w.amount, balanceLocked := 0 }),
        .ok, true⟩

/-- Result of `/admin_credit`. -/
inductive CreditResult
  | badTarget
  | badAmount
  | zeroAmount
  | notFound
  | ok
deriving DecidableEq, Repr

/-- State, result, and how many store reads/writes the command performed. -/
structure CreditOutcome where
  db : DB
  result : CreditResult
  storeReads : Nat
  storeWrites : Nat
deriving DecidableEq, Repr

/-- Model: `bot.command("admin_credit")` (bot.js:1216-1263).  `Number(...)`
producing a non-finite value (NaN for non-numeric input) is modelled as
`none`.  The validation chain — target numeric, amount numeric, amount
nonzero — runs before the single `findOne`; only then is the atomic
`$inc` applied. -/
def adminCredit (db : DB) (targetId : Option Nat) (amount : Option ℚ) :
    CreditOutcome :=
  match targetId with
  | none => ⟨db, .badTarget, 0, 0⟩
  | some t =>
      match amount with
      | none => ⟨db, .badAmount, 0, 0⟩
      | some a =>
          if a = 0 then ⟨db, .zeroAmount, 0, 0⟩
          else
            match findUser db t with
            | none => ⟨db, .notFound, 1, 0⟩
            | some _ =>
                ⟨updUser db t (fun v => { v with balance := v.balance + a }),
                 .ok, 1, 1⟩

/-- The `$set` of the invalid transition:
`{status: "invalid", reason}`. -/
def invalidStamp (why : String) (p : PendingReferral) : PendingReferral :=
  { p with status := .invalid, reason := some why }

/-- The `$set` of the confirmed transition:
`{status: "confirmed", confirmedAt}`. -/
def confirmStamp (now : Nat) (p : PendingReferral) : PendingReferral :=
  { p with status := .confirmed, confirmedAt := some now }

/-- The `$inc` of the referrer credit:
`{balance: REFERRAL_REWARD, confirmedReferrals: 1}`. -/
def creditStamp (reward : ℚ) (v : User) : User :=
  { v with balance := v.balance + reward,
           confirmedReferrals := v.confirmedReferrals + 1 }

/-- Model: `pendingCol.updateOne({_id: pid}, {$set: {status: "invalid", reason}})`
— note the filter is the id alone, with no condition on the current
status (bot.js:1284-1286, 1294-1297, 1309-1312). -/
def setPendingInvalid (db : DB) (pid : Nat) (why : String) : DB :=
  updPending db pid (invalidStamp why)

/-- Model: `pendingCol.updateOne({_id: pid}, {$set: {status: "confirmed",
confirmedAt}})` — again filtered on the id alone (bot.js:1316-1319). -/
def setPendingConfirmed (db : DB) (pid : Nat) (now : Nat) : DB :=
  updPending db pid (confirmStamp now)

/-- Whether processing one record credited the referrer. -/
inductive ProcOutcome
  | confirmed
  | invalidated
deriving DecidableEq, Repr

/-- The per-record body of the confirmation loop (bot.js:1281-1341):
self-referral and missing-referred checks, then the unconditional
`findOneAndUpdate` credit of the referrer, then the status transition of
the pending record. -/
def processOne (reward : ℚ) (now : Nat) (db : DB) (p : PendingReferral) :
    DB × ProcOutcome :=
  if p.referredId = p.referrerId then
    (setPendingInvalid db p.id "self_referral", .invalidated)
  else if (findUser db p.referredId).isNone then
    (setPendingInvalid db p.id "no_user_record", .invalidated)
  else
    match findUser db p.referrerId with
    | none => (setPendingInvalid db p.id "no_referrer_record", .invalidated)
    | some _ =>
        let db1 := updUser db p.referrerId (creditStamp reward)
        let db2 := setPendingConfirmed db1 p.id now
        ({ db2 with refs := db2.refs ++
            [⟨p.referrerId, p.referredId, p.referralCode, now⟩] },
         .confirmed)

/-- The `{confirmed, invalidated}` summary returned by the job. -/
structure Summary where
  confirmed : List Nat
  invalidated : List Nat
deriving DecidableEq, Repr

/-- Fold the per-record body over an already-fetched batch (the
`toArray` snapshot of the `find` query, bot.js:1275). -/
def runOnSnapshot (reward : ℚ) (now : Nat) (db : DB) :
    List PendingReferral → DB × Summary
  | [] => (db, ⟨[], []⟩)
  | p :: ps =>
      let r1 := processOne reward now db p
      let r2 := runOnSnapshot reward now r1.1 ps
      match r1.2 with
      | .confirmed => (r2.1, ⟨p.id :: r2.2.confirmed, r2.2.invalidated⟩)
      | .invalidated => (r2.1, ⟨r2.2.confirmed, p.id :: r2.2.invalidated⟩)

/-- The selection query of the job (bot.js:1272-1275): all pending
records and, unless `force`, only those past the confirmation delay. -/
def selectPendings (force : Bool) (cutoff : Nat) (db : DB) :
    List PendingReferral :=
  db.pendings.filter (fun p =>
    p.status == PRStatus.pending && (force || decide (p.createdAt ≤ cutoff)))

/-- Model: `confirmPendingReferrals` (bot.js:1268-1344) as one sequential run:
select, then process each selected record. -/
def confirmPendingReferrals (force : Bool) (cutoff : Nat) (reward : ℚ)
    (now : Nat) (db : DB) : DB × Summary :=
  runOnSnapshot reward now db (selectPendings force cutoff db)

/-- The status currently stored for pending-referral id `pid`. -/
def statusOf (db : DB) (pid : Nat) : Option PRStatus :=
  (db.pendings.find? (fun p => p.id == pid)).map (·.status)

/-- The spendable-plus-locked funds of account `uid` (0 when absent). -/
def sumOf (db : DB) (uid : Nat) : ℚ :=
  match findUser db uid with
  | some u => u.balance + u.balanceLocked
  | none => 0

/-- How many PendingReferral documents reference `x` as the referred
identity. -/
def pendingCountFor (db : DB) (x : Nat) : Nat :=
  db.pendings.countP (fun p => p.referredId == x)

/-- A pending withdrawal with this id exists (the `findOne` of
`/pay` and `/cancelwithdraw` succeeds). -/
def pendingWdExists (db : DB) (wid : Nat) : Bool :=
  (db.withdrawals.find?
    (fun w => w.id == wid && w.status == WStatus.pending)).isSome

/-- The ledger invariant of §3/§4.3 of the spec: every withdrawal still
in state pending carries exactly the amount locked on its owner's
account. -/
def WdAmountInv (db : DB) : Prop :=
  ∀ w ∈ db.withdrawals, w.status = WStatus.pending →
    ∀ u, findUser db w.userId = some u → w.amount = u.balanceLocked

/-- All monetary quantities of the state are non-negative. -/
def NonnegDB (db : DB) : Prop :=
  (∀ u ∈ db.users, 0 ≤ u.balance ∧ 0 ≤ u.balanceLocked) ∧
  (∀ w ∈ db.withdrawals, 0 ≤ w.amount)

/-- One inbound event of the system, with its payload: exactly the
handlers of `bot.js` that read or mutate the ledger collections. -/
inductive Op
  | start (fromId : Nat) (newCode : String) (payload : String)
  | withdraw (uid : Nat)
  | text (uid : Nat) (msg : String) (newCode : String)
  | setupi (uid : Nat)
  | support (uid : Nat)
  | pay (wid : Nat) (adminId : Nat)
  | cancelWithdraw (wid : Nat)
  | credit (targetId : Option Nat) (amount : Option ℚ)
  | confirmJob (force : Bool)
deriving DecidableEq, Repr

/-- Dispatch one inbound event to its handler. -/
def applyOp (minW reward : ℚ) (cutoff now : Nat) (op : Op) (db : DB) : DB :=
  match op with
  | .start fromId newCode payload => handleStart db fromId newCode payload now
  | .withdraw uid => startWithdrawFlow minW now db uid
  | .text uid msg newCode => handleText db uid msg now newCode
  | .setupi uid => startUpiSetup db uid
  | .support uid => startSupportIntake db uid
  | .pay wid adminId => (payCommand db wid adminId now).db
  | .cancelWithdraw wid => (cancelWithdrawCommand db wid now).db
  | .credit t a => (adminCredit db t a).db
  | .confirmJob force => (confirmPendingReferrals force cutoff reward now db).1

/-- The event is an admin credit with a negative amount. -/
def IsNegCredit : Op → Prop
  | .credit _ (some a) => a < 0
  | _ => False

/-- The event is a `/pay` that will find its pending withdrawal — a
successful settlement, where money leaves the system. -/
def IsSuccessfulSettle (db : DB) : Op → Prop
  | .pay wid _ => pendingWdExists db wid = true
  | _ => False

/-- Parameters of one confirmation run (which trigger fired it and at
what time). -/
structure RunParams where
  force : Bool
  cutoff : Nat
  now : Nat
deriving DecidableEq, Repr

/-- Run the confirmation job once per parameter set, sequentially, and
count how many of the runs report `pid` in their `confirmed` list —
i.e. how many times the record credited its referrer. -/
def confirmedCountAcross (reward : ℚ) (pid : Nat) :
    List RunParams → DB → Nat
  | [], _ => 0
  | rp :: rest, db =>
      let r := confirmPendingReferrals rp.force rp.cutoff reward rp.now db
      (if pid ∈ r.2.confirmed then 1 else 0) +
        confirmedCountAcross reward pid rest r.1

/-- Concrete state for counterexamples: an account mid-way through a
withdrawal dialogue, its whole balance of 100 locked. -/
def draftingUser : User :=
  { telegramId := 7, referralCode := "ref_u7", balance := 0,
    confirmedReferrals := 0, balanceLocked := 100,
    awaitingWithdrawUPI := true }

/-- State holding just `draftingUser`. -/
def draftingDB : DB := ⟨[draftingUser], [], [], [], 1⟩

/-- Concrete state: an account with balance 100 whose payout-target
(UPI) setup dialogue is currently active. -/
def upiSetupUser : User :=
  { telegramId := 7, referralCode := "ref_u7", balance := 100,
    confirmedReferrals := 0, awaitingUpiSetup := true }

/-- State holding just `upiSetupUser`. -/
def upiSetupDB : DB := ⟨[upiSetupUser], [], [], [], 1⟩

/-- Concrete state: a freshly created account with zero balance. -/
def freshUser : User :=
  { telegramId := 9, referralCode := "ref_u9", balance := 0,
    confirmedReferrals := 0 }

/-- State holding just `freshUser`. -/
def freshDB : DB := ⟨[freshUser], [], [], [], 1⟩

/-- Concrete state for the racing-sweeps counterexample: a referrer
(id 1), a referred user (id 2), and one pending referral between them. -/
def raceDB : DB :=
  ⟨[{ telegramId := 1, referralCode := "ref_r", balance := 0,
      confirmedReferrals := 0 },
    { telegramId := 2, referralCode := "ref_d", balance := 0,
      confirmedReferrals := 0 }],
   [{ id := 10, referredId := 2, referrerId := 1, referralCode := "ref_r",
      createdAt := 0, status := .pending }],
   [], [], 11⟩

/-- Concrete account in the spec's example scenario: balance 100,
intent Idle, nothing locked. -/
def freshWealthyUser : User :=
  { telegramId := 8, referralCode := "ref_u8", balance := 100,
    confirmedReferrals := 0 }

/-- State holding just `freshWealthyUser`. -/
def freshWealthyDB : DB := ⟨[freshWealthyUser], [], [], [], 1⟩

/-- Concrete withdrawal awaiting settlement. -/
def wdPending : Withdrawal :=
  { id := 3, userId := 7, upi := "a@bank", amount := 40, requestedAt := 2,
    status := .pending }

/-- Concrete state: account 7 has 40 locked behind the pending
withdrawal `wdPending`. -/
def wdPendingDB : DB :=
  ⟨[{ telegramId := 7, referralCode := "ref_u7", balance := 0,
      confirmedReferrals := 0, balanceLocked := 40 }],
   [], [wdPending], [], 4⟩

/-- Concrete self-referral: user 5 referred through their own code. -/
def selfPending : PendingReferral :=
  { id := 20, referredId := 5, referrerId := 5, referralCode := "ref_s",
    createdAt := 0, status := .pending }

/-- State with the self-referral `selfPending` awaiting confirmation. -/
def selfDB : DB :=
  ⟨[{ telegramId := 5, referralCode := "ref_s", balance := 0,
      confirmedReferrals := 0 }],
   [selfPending], [], [], 21⟩

section Helpers

variable {α : Type _}

theorem updateFirst_key_map (k : α → Nat) (f : α → α) (t : Nat)
    (hf : ∀ a, k (f a) = k a) :
    ∀ l : List α, (updateFirst (fun a => k a == t) f l).map k = l.map k := by
  intro l
  induction l with
  | nil => rfl
  | cons a l ih =>
    by_cases h : k a = t
    · simp [updateFirst, h, hf]
    · simp [updateFirst, h, ih]

theorem find?_updateFirst_key (k : α → Nat) (f : α → α) (t uid : Nat)
    (hf : ∀ a, k (f a) = k a) :
    ∀ l : List α,
      (updateFirst (fun a => k a == t) f l).find? (fun a => k a == uid) =
        if t = uid then (l.find? (fun a => k a == uid)).map f
        else l.find? (fun a => k a == uid) := by
  intro l
  induction l with
  | nil => by_cases h : t = uid <;> simp [updateFirst, h]
  | cons a l ih =>
    by_cases hat : k a = t
    · by_cases htu : t = uid
      · subst htu
        simp [updateFirst, hat, hf]
      · have hau : ¬ (k a = uid) := fun h => htu (hat ▸ h)
        simp [updateFirst, hat, htu, hau, hf]
    · by_cases hau : k a = uid
      · have htu : ¬ (t = uid) := fun h => hat (by rw [h, hau])
        have hut : ¬ (uid = t) := fun h => htu h.symm
        simp [updateFirst, hat, htu, hau, hut]
      · simp [updateFirst, hat, hau, ih]

theorem find?_key_of_nodup (k : α → Nat) :
    ∀ (l : List α) (a : α), (l.map k).Nodup → a ∈ l →
      l.find? (fun x => k x == k a) = some a := by
  intro l
  induction l with
  | nil => intro a _ ha; cases ha
  | cons b l ih =>
    intro a hnd ha
    rw [List.map_cons] at hnd
    have hnd' := List.nodup_cons.mp hnd
    rcases List.mem_cons.mp ha with rfl | ha
    · simp
    · have hne : ¬ (k b = k a) := fun h => hnd'.1 (h ▸ List.mem_map_of_mem k ha)
      simpa [hne] using ih a hnd'.2 ha

theorem mem_updateFirst (p : α → Bool) (f : α → α) :
    ∀ (l : List α) (b : α), b ∈ updateFirst p f l →
      b ∈ l ∨ ∃ a, l.find? p = some a ∧ b = f a := by
  intro l
  induction l with
  | nil => intro b hb; cases hb
  | cons a l ih =>
    intro b hb
    by_cases hpa : p a = true
    · rw [show updateFirst p f (a :: l) = f a :: l by simp [updateFirst, hpa]] at hb
      rcases List.mem_cons.mp hb with rfl | hb
      · exact Or.inr ⟨a, by simp [hpa], rfl⟩
      · exact Or.inl (List.mem_cons_of_mem a hb)
    · rw [show updateFirst p f (a :: l) = a :: updateFirst p f l by
        simp [updateFirst, hpa]] at hb
      rcases List.mem_cons.mp hb with rfl | hb
      · exact Or.inl (List.mem_cons_self _ _)
      · rcases ih b hb with h | ⟨c, hc, rfl⟩
        · exact Or.inl (List.mem_cons_of_mem a h)
        · exact Or.inr ⟨c, by simp [List.find?_cons, hpa, hc], rfl⟩

theorem countP_updateFirst (p q : α → Bool) (f : α → α)
    (hpf : ∀ a, p (f a) = p a) :
    ∀ l : List α, (updateFirst q f l).countP p = l.countP p := by
  intro l
  induction l with
  | nil => rfl
  | cons a l ih =>
    by_cases hqa : q a = true
    · simp [updateFirst, hqa, List.countP_cons, hpf]
    · simp [updateFirst, hqa, List.countP_cons, ih]

end Helpers

/-- Lemma: `findUser` after `updUser`: the targeted account is seen through
`f`; every other account is untouched. -/
theorem findUser_updUser (db : DB) (t uid : Nat) (f : User → User)
    (hf : ∀ u, (f u).telegramId = u.telegramId) :
    findUser (updUser db t f) uid =
      if t = uid then (findUser db uid).map f else findUser db uid := by
  simpa [findUser, updUser] using
    find?_updateFirst_key (fun u : User => u.telegramId) f t uid hf db.users

theorem toLower_cancel_beq : ("cancel".toLower == "cancel") = true := by
  with_unfolding_all rfl

/-- Helper: the successful path of `startWithdrawFlow` in terms of the
stored record. -/
theorem startWithdrawFlow_found (minW : ℚ) (now : Nat) (db : DB) (uid : Nat)
    (u : User) (hu : findUser db uid = some u)
    (hlock : ¬ (0 < u.balanceLocked)) (hmin : ¬ (u.balance < minW)) :
    findUser (startWithdrawFlow minW now db uid) uid =
      some { u with awaitingWithdrawUPI := true,
                    balanceLocked := u.balance,
                    lastWithdrawAt := some now,
                    awaitingWithdrawUPIConfirm := u.primaryUPI.isSome,
                    draftWithdrawUPI := u.primaryUPI,
                    balance := u.balance - u.balance } := by
  unfold startWithdrawFlow
  simp only [hu]
  rw [if_neg hlock, if_neg hmin, findUser_updUser db uid uid _ ?hf,
    if_pos rfl, hu]
  case hf => intro v; rfl
  rfl

/-- Helper: the cancel branch of the withdrawal dialogue in terms of the
stored record. -/
theorem handleText_cancel_found (db : DB) (uid : Nat) (u : User)
    (now : Nat) (code : String) (hu : findUser db uid = some u)
    (hupi : u.awaitingUpiSetup = false) (hwd : u.awaitingWithdrawUPI = true) :
    findUser (handleText db uid "cancel" now code) uid =
      some { u with balance := u.balance + u.balanceLocked,
                    awaitingWithdrawUPI := false,
                    awaitingWithdrawUPIConfirm := false,
                    draftWithdrawUPI := none, balanceLocked := 0 } := by
  unfold handleText
  simp only [hu, hupi, hwd, toLower_cancel_beq, Bool.false_eq_true,
    if_false, if_true]
  rw [findUser_updUser db uid uid _ ?hf, if_pos rfl, hu]
  case hf => intro v; rfl
  simp [hupi]

/-- C10: with no outstanding locked balance and a balance at or above
the minimum, `startWithdrawFlow` locks the account's entire current
balance — `balanceLocked` becomes exactly the old balance and `balance`
becomes 0; the operation takes no partial amount. -/
theorem withdraw_locks_entire_balance (minW : ℚ) (now : Nat) (db : DB)
    (uid : Nat) (u : User) (hu : findUser db uid = some u)
    (hlock : u.balanceLocked = 0) (hmin : minW ≤ u.balance) :
    findUser (startWithdrawFlow minW now db uid) uid =
      some { u with awaitingWithdrawUPI := true,
                    balanceLocked := u.balance,
                    lastWithdrawAt := some now,
                    awaitingWithdrawUPIConfirm := u.primaryUPI.isSome,
                    draftWithdrawUPI := u.primaryUPI,
                    balance := 0 } := by
  rw [startWithdrawFlow_found minW now db uid u hu
    (by rw [hlock]; exact lt_irrefl 0) (not_lt.mpr hmin)]
  simp [sub_self]

/-- Witness for C10 at a concrete account with balance 100 and minimum
withdrawal 50. -/
theorem withdraw_locks_entire_balance_witness :
    findUser upiSetupDB 7 = some upiSetupUser ∧
    upiSetupUser.balanceLocked = 0 ∧ ((50 : ℚ) ≤ upiSetupUser.balance) ∧
    findUser (startWithdrawFlow 50 3 upiSetupDB 7) 7 =
      some { upiSetupUser with
              awaitingWithdrawUPI := true,
              balanceLocked := upiSetupUser.balance,
              lastWithdrawAt := some 3,
              awaitingWithdrawUPIConfirm := upiSetupUser.primaryUPI.isSome,
              draftWithdrawUPI := upiSetupUser.primaryUPI,
              balance := 0 } :=
  ⟨rfl, rfl, by decide,
   withdraw_locks_entire_balance 50 3 upiSetupDB 7 upiSetupUser rfl rfl
     (by decide)⟩

/-- C2 (counterexample): starting payout-target setup while a withdrawal
draft holds 100 locked leaves BOTH intents set and the amount still
locked — the claim says this must not happen. -/
theorem upi_setup_during_draft_keeps_both_intents_and_lock :
    (findUser (startUpiSetup draftingDB 7) 7).map
        (fun u => (u.awaitingUpiSetup, u.awaitingWithdrawUPI, u.balanceLocked))
      = some (true, true, 100) ∧
    (findUser draftingDB 7).map (·.awaitingUpiSetup) = some false := by
  constructor
  · with_unfolding_all rfl
  · rfl

/-- C2 (amended): setting a new intent does not clear a different
previous intent at all — `startUpiSetup` and the SUPPORT action each
merely set their own flag, leaving every other intent field, the
balance, and the locked amount unchanged (a withdrawal draft is
shadowed, not released). -/
theorem new_intent_leaves_other_intent_unchanged (db : DB) (uid : Nat)
    (u : User) (hu : findUser db uid = some u) :
    findUser (startUpiSetup db uid) uid =
      some { u with awaitingUpiSetup := true, draftUpiSetup := none } ∧
    findUser (startSupportIntake db uid) uid =
      some { u with awaitingSupportMessage := true } := by
  constructor
  · unfold startUpiSetup
    rw [findUser_updUser db uid uid _ ?hf1, if_pos rfl, hu]
    case hf1 => intro v; rfl
    rfl
  · unfold startSupportIntake
    rw [findUser_updUser db uid uid _ ?hf2, if_pos rfl, hu]
    case hf2 => intro v; rfl
    rfl

/-- Witness for the amended C2 at the drafting account. -/
theorem new_intent_leaves_other_intent_unchanged_witness :
    findUser (startUpiSetup draftingDB 7) 7 =
      some { draftingUser with awaitingUpiSetup := true,
                               draftUpiSetup := none } ∧
    findUser (startSupportIntake draftingDB 7) 7 =
      some { draftingUser with awaitingSupportMessage := true } :=
  new_intent_leaves_other_intent_unchanged draftingDB 7 draftingUser rfl

/-- C4 (counterexample): an account with balance 100 (minimum 50, no
lock) whose payout-target setup dialogue happens to be active: drafting
a withdrawal and then sending "cancel" leaves balance 0 with 100 still
locked — the cancel keyword is captured by the UPI-setup branch, so the
balance is not restored and the intent is not Idle. -/
theorem cancel_after_draft_not_restored_during_upi_setup :
    (findUser upiSetupDB 7).map (·.balance) = some 100 ∧
    (findUser (handleText (startWithdrawFlow 50 3 upiSetupDB 7) 7 "cancel"
        4 "ref_x") 7).map
      (fun u => (u.balance, u.balanceLocked, u.awaitingWithdrawUPI)) =
      some (0, 100, true) := by
  constructor
  · rfl
  · with_unfolding_all rfl

/-- C4 (amended): for an account whose intent is Idle (no UPI-setup,
withdrawal or support dialogue active), with no locked balance and
balance at or above the minimum, drafting a withdrawal and then sending
"cancel" restores the balance exactly, clears the lock and returns the
intent to Idle (only the `lastWithdrawAt` stamp remains). -/
theorem withdraw_cancel_roundtrip_from_idle (minW : ℚ) (now now2 : Nat)
    (code : String) (db : DB) (uid : Nat) (u : User)
    (hu : findUser db uid = some u)
    (hlock : u.balanceLocked = 0)
    (h1 : u.awaitingUpiSetup = false) (_h2 : u.draftUpiSetup = none)
    (h3 : u.awaitingWithdrawUPI = false)
    (h4 : u.awaitingWithdrawUPIConfirm = false)
    (h5 : u.draftWithdrawUPI = none)
    (_h6 : u.awaitingSupportMessage = false)
    (hmin : minW ≤ u.balance) :
    findUser (handleText (startWithdrawFlow minW now db uid) uid "cancel"
        now2 code) uid =
      some { u with lastWithdrawAt := some now } := by
  have hs := startWithdrawFlow_found minW now db uid u hu
    (by rw [hlock]; exact lt_irrefl 0) (not_lt.mpr hmin)
  rw [handleText_cancel_found _ uid _ now2 code hs h1 rfl]
  simp [h3, h4, h5, hlock, sub_self, zero_add]

/-- Witness for the amended C4 with balance 100 and minimum 50 (the
spec's own example scenario). -/
theorem withdraw_cancel_roundtrip_from_idle_witness :
    ((50 : ℚ) ≤ freshWealthyUser.balance) ∧
    findUser (handleText (startWithdrawFlow 50 3 freshWealthyDB 8 ) 8
        "cancel" 4 "ref_x") 8 =
      some { freshWealthyUser with lastWithdrawAt := some 3 } :=
  ⟨by decide,
   withdraw_cancel_roundtrip_from_idle 50 3 4 "ref_x" freshWealthyDB 8
     freshWealthyUser rfl rfl rfl rfl rfl rfl rfl rfl (by decide)⟩

/-- C3 (counterexample): an admin credit of −5 to a zero-balance account
drives the balance to −5, which is below zero — the operation has no
floor check. -/
theorem admin_negative_credit_breaks_nonnegativity :
    (findUser (adminCredit freshDB (some 9) (some (-5))).db 9).map
        (·.balance) = some (-5) ∧
    ((-5 : ℚ) < 0) := by
  constructor
  · with_unfolding_all rfl
  · with_unfolding_all decide

/-- C7 (counterexample): the schema created by `connectDB` has no index
on `pending.referredId` at all — the pending collection's only index is
a non-unique one on `createdAt`, so no uniqueness constraint on
`referredId` is enforced by the persisted layout. -/
theorem no_unique_index_on_pending_referredId :
    connectDBIndexes.find?
        (fun i => i.coll == "pending" && i.keyName == "referredId") = none ∧
    (connectDBIndexes.filter (fun i => i.coll == "pending")).map
        (fun i => (i.keyName, i.uniq)) = [("createdAt", false)] := by
  exact ⟨rfl, rfl⟩

/-- C9: `/admin_credit` validation — a missing (non-numeric) target or
amount, or a zero amount, is rejected before any store access (zero
reads, zero writes, state unchanged); a nonzero amount for an existing
account is applied as one atomic increment of that account's balance. -/
theorem admin_credit_validates_before_store (db : DB) (t : Nat) (a : ℚ)
    (u : User) :
    adminCredit db none (some a) = ⟨db, .badTarget, 0, 0⟩ ∧
    adminCredit db (some t) none = ⟨db, .badAmount, 0, 0⟩ ∧
    adminCredit db (some t) (some 0) = ⟨db, .zeroAmount, 0, 0⟩ ∧
    (a ≠ 0 → findUser db t = some u →
      adminCredit db (some t) (some a) =
        ⟨updUser db t (fun v => { v with balance := v.balance + a }),
         .ok, 1, 1⟩ ∧
      findUser (adminCredit db (some t) (some a)).db t =
        some { u with balance := u.balance + a }) := by
  refine ⟨rfl, rfl, by simp [adminCredit], ?_⟩
  intro ha hu
  have he : adminCredit db (some t) (some a) =
      ⟨updUser db t (fun v => { v with balance := v.balance + a }),
       .ok, 1, 1⟩ := by
    unfold adminCredit
    simp only [hu, if_neg ha]
  refine ⟨he, ?_⟩
  rw [he]
  rw [findUser_updUser db t t _ ?hf, if_pos rfl, hu]
  case hf => intro v; rfl
  rfl

/-- Witness for C9: crediting 5 to the fresh zero-balance account. -/
theorem admin_credit_validates_before_store_witness :
    adminCredit freshDB (some 9) (some 5) =
      ⟨updUser freshDB 9 (fun v => { v with balance := v.balance + 5 }),
       .ok, 1, 1⟩ ∧
    findUser (adminCredit freshDB (some 9) (some 5)).db 9 =
      some { freshUser with balance := freshUser.balance + 5 } :=
  (admin_credit_validates_before_store freshDB 9 5 freshUser).2.2.2
    (by decide) rfl

/-- C6: `/pay` on a pending withdrawal transitions it to paid, stamps
`paidAt`/`paidBy`, clears the owner's `balanceLocked` without touching
the balance, and notifies; on an id with no pending withdrawal it
returns NotFound as a strict no-op with no notification. -/
theorem settle_pending_or_noop (db : DB) (wid adminId now : Nat)
    (hnd : (db.withdrawals.map (·.id)).Nodup) :
    (∀ w, db.withdrawals.find?
        (fun x => x.id == wid && x.status == WStatus.pending) = some w →
      (payCommand db wid adminId now).result = .ok ∧
      (payCommand db wid adminId now).notified = true ∧
      (payCommand db wid adminId now).db.withdrawals.find?
          (fun x => x.id == w.id) =
        some { w with status := .paid, paidAt := some now,
                      paidBy := some adminId } ∧
      findUser (payCommand db wid adminId now).db w.userId =
        (findUser db w.userId).map (fun v => { v with balanceLocked := 0 }) ∧
      (∀ uid, uid ≠ w.userId →
        findUser (payCommand db wid adminId now).db uid =
          findUser db uid)) ∧
    (db.withdrawals.find?
        (fun x => x.id == wid && x.status == WStatus.pending) = none →
      payCommand db wid adminId now = ⟨db, .notFound, false⟩) := by
  constructor
  · intro w hw
    have hmem : w ∈ db.withdrawals := List.mem_of_find?_eq_some hw
    have hfid : db.withdrawals.find? (fun x => x.id == w.id) = some w :=
      find?_key_of_nodup (fun x : Withdrawal => x.id) db.withdrawals w hnd hmem
    have hpc : payCommand db wid adminId now =
        ⟨updUser (updWithdrawal db w.id (fun x =>
            { x with status := .paid, paidAt := some now,
                     paidBy := some adminId })) w.userId
          (fun v => { v with balanceLocked := 0 }), .ok, true⟩ := by
      unfold payCommand
      simp only [hw]
    rw [hpc]
    refine ⟨rfl, rfl, ?_, ?_, ?_⟩
    · show (updateFirst (fun x => x.id == w.id) _ db.withdrawals).find?
          (fun x => x.id == w.id) = _
      rw [find?_updateFirst_key (fun x : Withdrawal => x.id) _ w.id w.id
        ?hf1 db.withdrawals, if_pos rfl, hfid]
      case hf1 => intro x; rfl
      rfl
    · rw [findUser_updUser _ w.userId w.userId _ ?hf2, if_pos rfl]
      case hf2 => intro v; rfl
      rfl
    · intro uid huid
      rw [findUser_updUser _ w.userId uid _ ?hf3,
        if_neg (fun h => huid h.symm)]
      case hf3 => intro v; rfl
      rfl
  · intro h
    unfold payCommand
    simp only [h]

/-- Witness for C6 at the concrete pending withdrawal `wdPending`. -/
theorem settle_pending_or_noop_witness :
    (payCommand wdPendingDB 3 99 8).result = .ok ∧
    (payCommand wdPendingDB 3 99 8).notified = true ∧
    (payCommand wdPendingDB 3 99 8).db.withdrawals.find?
        (fun x => x.id == wdPending.id) =
      some { wdPending with status := .paid, paidAt := some 8,
                            paidBy := some 99 } ∧
    findUser (payCommand wdPendingDB 3 99 8).db wdPending.userId =
      (findUser wdPendingDB wdPending.userId).map
        (fun v => { v with balanceLocked := 0 }) ∧
    findUser (payCommand wdPendingDB 3 99 8).db 1 = findUser wdPendingDB 1 ∧
    payCommand wdPendingDB 1 99 8 = ⟨wdPendingDB, .notFound, false⟩ := by
  have h := settle_pending_or_noop wdPendingDB 3 99 8 (by decide)
  have h1 := h.1 wdPending rfl
  have h2 := (settle_pending_or_noop wdPendingDB 1 99 8 (by decide)).2 rfl
  exact ⟨h1.1, h1.2.1, h1.2.2.1, h1.2.2.2.1, h1.2.2.2.2 1 (by decide), h2⟩

/-- Lemma: `updPending` at a different id does not affect a lookup. -/
theorem find?_pendings_updPending (db : DB) (q pid : Nat)
    (f : PendingReferral → PendingReferral) (hf : ∀ p, (f p).id = p.id) :
    (updPending db q f).pendings.find? (fun x => x.id == pid) =
      if q = pid then (db.pendings.find? (fun x => x.id == pid)).map f
      else db.pendings.find? (fun x => x.id == pid) := by
  unfold updPending
  exact find?_updateFirst_key (fun p : PendingReferral => p.id) f q pid hf
    db.pendings

/-- Lemma: `updPending` preserves the list of pending-record ids. -/
theorem pendings_map_id_updPending (db : DB) (pid : Nat)
    (f : PendingReferral → PendingReferral) (hf : ∀ p, (f p).id = p.id) :
    (updPending db pid f).pendings.map (·.id) = db.pendings.map (·.id) :=
  updateFirst_key_map (fun p : PendingReferral => p.id) f pid hf db.pendings

/-- The self-referral branch of `processOne`, in closed form. -/
theorem processOne_self (reward : ℚ) (now : Nat) (db : DB)
    (p : PendingReferral) (hself : p.referredId = p.referrerId) :
    processOne reward now db p =
      (setPendingInvalid db p.id "self_referral", .invalidated) := by
  unfold processOne
  rw [if_pos hself]

/-- Lemma: `processOne` preserves the list of pending-record ids. -/
theorem processOne_pendings_map_id (reward : ℚ) (now : Nat) (db : DB)
    (p : PendingReferral) :
    (processOne reward now db p).1.pendings.map (·.id) =
      db.pendings.map (·.id) := by
  unfold processOne
  split
  · exact pendings_map_id_updPending db p.id _ (fun _ => rfl)
  · split
    · exact pendings_map_id_updPending db p.id _ (fun _ => rfl)
    · split
      · exact pendings_map_id_updPending db p.id _ (fun _ => rfl)
      · exact pendings_map_id_updPending _ p.id _ (fun _ => rfl)

/-- Lemma: `setPendingInvalid` through a lookup by id. -/
theorem find?_pendings_setPendingInvalid (db : DB) (q pid : Nat)
    (why : String) :
    (setPendingInvalid db q why).pendings.find? (fun x => x.id == pid) =
      if q = pid
      then (db.pendings.find? (fun x => x.id == pid)).map (invalidStamp why)
      else db.pendings.find? (fun x => x.id == pid) :=
  find?_pendings_updPending db q pid (invalidStamp why) (fun _ => rfl)

/-- Lemma: `setPendingConfirmed` through a lookup by id. -/
theorem find?_pendings_setPendingConfirmed (db : DB) (q pid now : Nat) :
    (setPendingConfirmed db q now).pendings.find? (fun x => x.id == pid) =
      if q = pid
      then (db.pendings.find? (fun x => x.id == pid)).map (confirmStamp now)
      else db.pendings.find? (fun x => x.id == pid) :=
  find?_pendings_updPending db q pid (confirmStamp now) (fun _ => rfl)

/-- Lemma: `processOne` on a record with a different id leaves a lookup
unchanged. -/
theorem find?_pendings_processOne_ne (reward : ℚ) (now : Nat) (db : DB)
    (p : PendingReferral) (pid : Nat) (h : p.id ≠ pid) :
    (processOne reward now db p).1.pendings.find? (fun x => x.id == pid) =
      db.pendings.find? (fun x => x.id == pid) := by
  unfold processOne
  split
  · exact (find?_pendings_setPendingInvalid db p.id pid
      "self_referral").trans (if_neg h)
  · split
    · exact (find?_pendings_setPendingInvalid db p.id pid
        "no_user_record").trans (if_neg h)
    · split
      · exact (find?_pendings_setPendingInvalid db p.id pid
          "no_referrer_record").trans (if_neg h)
      · exact (find?_pendings_setPendingConfirmed
          (updUser db p.referrerId (creditStamp reward)) p.id pid now).trans
          (if_neg h)

/-- The record an `invalidStamp` produces is not pending. -/
theorem statusOf_setPendingInvalid_self (db : DB) (q : Nat) (why : String) :
    statusOf (setPendingInvalid db q why) q ≠ some .pending := by
  unfold statusOf
  rw [find?_pendings_setPendingInvalid db q q why, if_pos rfl]
  cases db.pendings.find? (fun x => x.id == q) <;> simp [invalidStamp]

/-- The record a `confirmStamp` produces is not pending. -/
theorem statusOf_setPendingConfirmed_self (db : DB) (q now : Nat) :
    statusOf (setPendingConfirmed db q now) q ≠ some .pending := by
  unfold statusOf
  rw [find?_pendings_setPendingConfirmed db q q now, if_pos rfl]
  cases db.pendings.find? (fun x => x.id == q) <;> simp [confirmStamp]

/-- After `processOne` handles a record, that record's stored status is
never `pending` (every branch stamps `invalid` or `confirmed`). -/
theorem processOne_statusOf_self_not_pending (reward : ℚ) (now : Nat)
    (db : DB) (p : PendingReferral) :
    statusOf (processOne reward now db p).1 p.id ≠ some .pending := by
  unfold processOne
  split
  · exact statusOf_setPendingInvalid_self db p.id "self_referral"
  · split
    · exact statusOf_setPendingInvalid_self db p.id "no_user_record"
    · split
      · exact statusOf_setPendingInvalid_self db p.id "no_referrer_record"
      · exact statusOf_setPendingConfirmed_self
          (updUser db p.referrerId (creditStamp reward)) p.id now

/-- Once a record is no longer pending, `processOne` (of any record)
never makes it pending again. -/
theorem processOne_not_pending (reward : ℚ) (now : Nat) (db : DB)
    (p : PendingReferral) (pid : Nat)
    (h : statusOf db pid ≠ some .pending) :
    statusOf (processOne reward now db p).1 pid ≠ some .pending := by
  by_cases hp : p.id = pid
  · subst hp
    exact processOne_statusOf_self_not_pending reward now db p
  · unfold statusOf
    rw [find?_pendings_processOne_ne reward now db p pid hp]
    exact h

/-- The resulting state of a batch step. -/
theorem runOnSnapshot_cons_fst (reward : ℚ) (now : Nat) (db : DB)
    (p : PendingReferral) (ps : List PendingReferral) :
    (runOnSnapshot reward now db (p :: ps)).1 =
      (runOnSnapshot reward now (processOne reward now db p).1 ps).1 := by
  cases hoc : (processOne reward now db p).2 <;> simp [runOnSnapshot, hoc]

/-- A batch run preserves the list of pending-record ids. -/
theorem runOnSnapshot_pendings_map_id (reward : ℚ) (now : Nat) :
    ∀ (snap : List PendingReferral) (db : DB),
      (runOnSnapshot reward now db snap).1.pendings.map (·.id) =
        db.pendings.map (·.id) := by
  intro snap
  induction snap with
  | nil => intro db; rfl
  | cons p ps ih =>
    intro db
    rw [runOnSnapshot_cons_fst, ih, processOne_pendings_map_id]

/-- A batch run only touches records whose ids occur in its snapshot. -/
theorem runOnSnapshot_find?_untouched (reward : ℚ) (now : Nat) :
    ∀ (snap : List PendingReferral) (db : DB) (pid : Nat),
      (∀ q ∈ snap, q.id ≠ pid) →
      (runOnSnapshot reward now db snap).1.pendings.find?
          (fun x => x.id == pid) =
        db.pendings.find? (fun x => x.id == pid) := by
  intro snap
  induction snap with
  | nil => intro db pid _; rfl
  | cons p ps ih =>
    intro db pid h
    rw [runOnSnapshot_cons_fst,
      ih _ pid (fun q hq => h q (List.mem_cons_of_mem p hq)),
      find?_pendings_processOne_ne reward now db p pid
        (h p (List.mem_cons_self _ _))]

/-- A batch run never puts a non-pending record back to pending. -/
theorem runOnSnapshot_not_pending (reward : ℚ) (now : Nat) :
    ∀ (snap : List PendingReferral) (db : DB) (pid : Nat),
      statusOf db pid ≠ some .pending →
      statusOf (runOnSnapshot reward now db snap).1 pid ≠ some .pending := by
  intro snap
  induction snap with
  | nil => intro db pid h; exact h
  | cons p ps ih =>
    intro db pid h
    rw [runOnSnapshot_cons_fst]
    exact ih _ pid (processOne_not_pending reward now db p pid h)

/-- The confirmed list of a batch step, by outcome of the head record. -/
theorem runOnSnapshot_cons_confirmedList (reward : ℚ) (now : Nat) (db : DB)
    (p : PendingReferral) (ps : List PendingReferral) :
    (runOnSnapshot reward now db (p :: ps)).2.confirmed =
      if (processOne reward now db p).2 = ProcOutcome.confirmed
      then p.id :: (runOnSnapshot reward now
        (processOne reward now db p).1 ps).2.confirmed
      else (runOnSnapshot reward now
        (processOne reward now db p).1 ps).2.confirmed := by
  cases hoc : (processOne reward now db p).2 <;> simp [runOnSnapshot, hoc]

/-- The invalidated list of a batch step, by outcome of the head
record. -/
theorem runOnSnapshot_cons_invalidatedList (reward : ℚ) (now : Nat)
    (db : DB) (p : PendingReferral) (ps : List PendingReferral) :
    (runOnSnapshot reward now db (p :: ps)).2.invalidated =
      if (processOne reward now db p).2 = ProcOutcome.confirmed
      then (runOnSnapshot reward now
        (processOne reward now db p).1 ps).2.invalidated
      else p.id :: (runOnSnapshot reward now
        (processOne reward now db p).1 ps).2.invalidated := by
  cases hoc : (processOne reward now db p).2 <;> simp [runOnSnapshot, hoc]

/-- An id reported as confirmed comes from a record of the snapshot. -/
theorem mem_confirmed_mem_snap (reward : ℚ) (now : Nat) :
    ∀ (snap : List PendingReferral) (db : DB) (pid : Nat),
      pid ∈ (runOnSnapshot reward now db snap).2.confirmed →
      ∃ q ∈ snap, q.id = pid := by
  intro snap
  induction snap with
  | nil => intro db pid h; simp [runOnSnapshot] at h
  | cons p ps ih =>
    intro db pid h
    rw [runOnSnapshot_cons_confirmedList] at h
    by_cases hoc : (processOne reward now db p).2 = ProcOutcome.confirmed
    · rw [if_pos hoc] at h
      rcases List.mem_cons.mp h with rfl | h
      · exact ⟨p, List.mem_cons_self _ _, rfl⟩
      · obtain ⟨q, hq, hq2⟩ := ih _ pid h
        exact ⟨q, List.mem_cons_of_mem p hq, hq2⟩
    · rw [if_neg hoc] at h
      obtain ⟨q, hq, hq2⟩ := ih _ pid h
      exact ⟨q, List.mem_cons_of_mem p hq, hq2⟩

/-- After a run whose summary confirms `pid`, the stored status of `pid`
is no longer pending. -/
theorem runOnSnapshot_confirmed_not_pending (reward : ℚ) (now : Nat) :
    ∀ (snap : List PendingReferral) (db : DB) (pid : Nat),
      pid ∈ (runOnSnapshot reward now db snap).2.confirmed →
      statusOf (runOnSnapshot reward now db snap).1 pid ≠ some .pending := by
  intro snap
  induction snap with
  | nil => intro db pid h; simp [runOnSnapshot] at h
  | cons p ps ih =>
    intro db pid h
    rw [runOnSnapshot_cons_fst]
    rw [runOnSnapshot_cons_confirmedList] at h
    by_cases hoc : (processOne reward now db p).2 = ProcOutcome.confirmed
    · rw [if_pos hoc] at h
      rcases List.mem_cons.mp h with rfl | h
      · exact runOnSnapshot_not_pending reward now ps _ _
          (processOne_statusOf_self_not_pending reward now db p)
      · exact ih _ pid h
    · rw [if_neg hoc] at h
      exact ih _ pid h

/-- Lemma: `confirmPendingReferrals` is the batch fold over its selection. -/
theorem confirmPendingReferrals_eq (force : Bool) (cutoff : Nat)
    (reward : ℚ) (now : Nat) (db : DB) :
    confirmPendingReferrals force cutoff reward now db =
      runOnSnapshot reward now db (selectPendings force cutoff db) := rfl

/-- A self-referral record of the snapshot ends the run stamped
invalid/self_referral, appears in the invalidated list, and never in
the confirmed list. -/
theorem runOnSnapshot_self_invalid (reward : ℚ) (now : Nat) :
    ∀ (snap : List PendingReferral) (db : DB) (p r : PendingReferral),
      (snap.map (·.id)).Nodup → p ∈ snap →
      p.referredId = p.referrerId →
      db.pendings.find? (fun x => x.id == p.id) = some r →
      (runOnSnapshot reward now db snap).1.pendings.find?
          (fun x => x.id == p.id) = some (invalidStamp "self_referral" r) ∧
      p.id ∈ (runOnSnapshot reward now db snap).2.invalidated ∧
      p.id ∉ (runOnSnapshot reward now db snap).2.confirmed := by
  intro snap
  induction snap with
  | nil => intro db p r _ hp; cases hp
  | cons a ps ih =>
    intro db p r hnd hp hself hfind
    rw [List.map_cons] at hnd
    have hnd' := List.nodup_cons.mp hnd
    rcases List.mem_cons.mp hp with rfl | hp
    · have hproc : processOne reward now db p =
          (setPendingInvalid db p.id "self_referral", .invalidated) :=
        processOne_self reward now db p hself
      have hid : ∀ q ∈ ps, q.id ≠ p.id := by
        intro q hq heq
        exact hnd'.1 (heq ▸ List.mem_map_of_mem (·.id) hq)
      have hocne : ¬ ((processOne reward now db p).2 =
          ProcOutcome.confirmed) := by
        simp [hproc]
      refine ⟨?_, ?_, ?_⟩
      · rw [runOnSnapshot_cons_fst, hproc,
          runOnSnapshot_find?_untouched reward now ps _ p.id hid]
        exact (find?_pendings_setPendingInvalid db p.id p.id
          "self_referral").trans (by rw [if_pos rfl, hfind]; rfl)
      · rw [runOnSnapshot_cons_invalidatedList, if_neg hocne]
        exact List.mem_cons_self _ _
      · rw [runOnSnapshot_cons_confirmedList, if_neg hocne]
        intro hmem
        obtain ⟨q, hq, hqid⟩ := mem_confirmed_mem_snap reward now ps _
          p.id hmem
        exact hid q hq hqid
    · have haid : a.id ≠ p.id := by
        intro heq
        exact hnd'.1 (heq ▸ List.mem_map_of_mem (·.id) hp)
      have hfind1 : (processOne reward now db a).1.pendings.find?
          (fun x => x.id == p.id) = some r := by
        rw [find?_pendings_processOne_ne reward now db a p.id haid]
        exact hfind
      obtain ⟨ih1, ih2, ih3⟩ :=
        ih (processOne reward now db a).1 p r hnd'.2 hp hself hfind1
      refine ⟨?_, ?_, ?_⟩
      · rw [runOnSnapshot_cons_fst]
        exact ih1
      · rw [runOnSnapshot_cons_invalidatedList]
        by_cases hoc : (processOne reward now db a).2 = ProcOutcome.confirmed
        · rw [if_pos hoc]; exact ih2
        · rw [if_neg hoc]; exact List.mem_cons_of_mem _ ih2
      · rw [runOnSnapshot_cons_confirmedList]
        by_cases hoc : (processOne reward now db a).2 = ProcOutcome.confirmed
        · rw [if_pos hoc]
          intro hmem
          rcases List.mem_cons.mp hmem with heq | hmem2
          · exact haid heq.symm
          · exact ih3 hmem2
        · rw [if_neg hoc]; exact ih3

/-- C8: every PendingReferral the confirmation engine selects whose
`referredId` equals its `referrerId` ends the run with status invalid
and reason self_referral, is reported as invalidated and never as
confirmed, and its processing leaves every user record (hence every
balance) untouched — for forced and delay-gated runs alike. -/
theorem self_referral_always_invalidated (force : Bool) (cutoff : Nat)
    (reward : ℚ) (now : Nat) (db : DB) (p : PendingReferral)
    (hnd : (db.pendings.map (·.id)).Nodup)
    (hsel : p ∈ selectPendings force cutoff db)
    (hself : p.referredId = p.referrerId) :
    (confirmPendingReferrals force cutoff reward now db).1.pendings.find?
        (fun x => x.id == p.id) =
      some { p with status := .invalid, reason := some "self_referral" } ∧
    p.id ∈ (confirmPendingReferrals force cutoff reward now
      db).2.invalidated ∧
    p.id ∉ (confirmPendingReferrals force cutoff reward now db).2.confirmed ∧
    (∀ db2 : DB, (processOne reward now db2 p).1.users = db2.users) := by
  have hmem : p ∈ db.pendings := List.mem_of_mem_filter hsel
  have hfind : db.pendings.find? (fun x => x.id == p.id) = some p :=
    find?_key_of_nodup (fun x : PendingReferral => x.id) db.pendings p hnd hmem
  have hsnd : ((selectPendings force cutoff db).map (·.id)).Nodup :=
    List.Nodup.sublist (List.Sublist.map _ (List.filter_sublist _)) hnd
  obtain ⟨h1, h2, h3⟩ := runOnSnapshot_self_invalid reward now
    (selectPendings force cutoff db) db p p hsnd hsel hself hfind
  refine ⟨h1, h2, h3, ?_⟩
  intro db2
  rw [processOne_self reward now db2 p hself]
  rfl

/-- Witness for C8 at the concrete self-referral, both forced and
unforced. -/
theorem self_referral_always_invalidated_witness :
    selfPending ∈ selectPendings false 0 selfDB ∧
    selfPending ∈ selectPendings true 0 selfDB ∧
    (confirmPendingReferrals false 0 (1/2) 9 selfDB).1.pendings.find?
        (fun x => x.id == selfPending.id) =
      some { selfPending with status := .invalid,
                              reason := some "self_referral" } ∧
    selfPending.id ∈
      (confirmPendingReferrals true 0 (1/2) 9 selfDB).2.invalidated := by
  refine ⟨by decide, by decide, ?_, ?_⟩
  · exact (self_referral_always_invalidated false 0 (1/2) 9 selfDB
      selfPending (by decide) (by decide) rfl).1
  · exact (self_referral_always_invalidated true 0 (1/2) 9 selfDB
      selfPending (by decide) (by decide) rfl).2.1

/-- Once a record is out of status pending (or absent), no later
sequential run ever reports it as confirmed again. -/
theorem confirmedCountAcross_zero (reward : ℚ) (pid : Nat) :
    ∀ (runs : List RunParams) (db : DB),
      (db.pendings.map (·.id)).Nodup →
      statusOf db pid ≠ some .pending →
      confirmedCountAcross reward pid runs db = 0 := by
  intro runs
  induction runs with
  | nil => intro db _ _; rfl
  | cons rp rest ih =>
    intro db hnd h
    have hnotmem : pid ∉ (confirmPendingReferrals rp.force rp.cutoff reward
        rp.now db).2.confirmed := by
      rw [confirmPendingReferrals_eq]
      intro hmem
      obtain ⟨q, hq, hqid⟩ :=
        mem_confirmed_mem_snap reward rp.now _ db pid hmem
      have hqmem : q ∈ db.pendings := List.mem_of_mem_filter hq
      have hqpred := List.of_mem_filter hq
      simp only [Bool.and_eq_true, beq_iff_eq] at hqpred
      have hfq : db.pendings.find? (fun x => x.id == q.id) = some q :=
        find?_key_of_nodup (fun x : PendingReferral => x.id) db.pendings q
          hnd hqmem
      subst hqid
      apply h
      unfold statusOf
      rw [hfq]
      show some q.status = some PRStatus.pending
      rw [hqpred.1]
    simp only [confirmedCountAcross]
    rw [if_neg hnotmem, zero_add]
    refine ih _ ?_ ?_
    · rw [confirmPendingReferrals_eq]
      rw [runOnSnapshot_pendings_map_id]
      exact hnd
    · rw [confirmPendingReferrals_eq]
      exact runOnSnapshot_not_pending reward rp.now _ db pid h

/-- C1 (amended): across any number of SEQUENTIAL confirmation runs, a
fixed PendingReferral id is reported confirmed — i.e. credits its
referrer — at most once: the selection query only picks records still
pending, and every processed record leaves pending for good.  (The
transition itself is not conditioned on the status, so this does not
extend to overlapping runs; see the counterexample.) -/
theorem referral_credit_at_most_once_sequential (reward : ℚ) (pid : Nat)
    (runs : List RunParams) (db : DB)
    (hnd : (db.pendings.map (·.id)).Nodup) :
    confirmedCountAcross reward pid runs db ≤ 1 := by
  induction runs generalizing db with
  | nil => exact Nat.zero_le 1
  | cons rp rest ih =>
    have hnd2 : (((confirmPendingReferrals rp.force rp.cutoff reward rp.now
        db).1.pendings).map (·.id)).Nodup := by
      rw [confirmPendingReferrals_eq, runOnSnapshot_pendings_map_id]
      exact hnd
    simp only [confirmedCountAcross]
    by_cases hmem : pid ∈ (confirmPendingReferrals rp.force rp.cutoff reward
        rp.now db).2.confirmed
    · rw [if_pos hmem]
      have hz : confirmedCountAcross reward pid rest
          (confirmPendingReferrals rp.force rp.cutoff reward rp.now db).1
            = 0 := by
        refine confirmedCountAcross_zero reward pid rest _ hnd2 ?_
        rw [confirmPendingReferrals_eq]
        refine runOnSnapshot_confirmed_not_pending reward rp.now _ db pid ?_
        rw [← confirmPendingReferrals_eq]
        exact hmem
      rw [hz]
    · rw [if_neg hmem, zero_add]
      exact ih _ hnd2

/-- Witness for the amended C1: three sequential runs over the concrete
referral state credit at most once. -/
theorem referral_credit_at_most_once_sequential_witness :
    (raceDB.pendings.map (·.id)).Nodup ∧
    confirmedCountAcross (1/2) 10
      [⟨true, 0, 5⟩, ⟨true, 0, 6⟩, ⟨false, 7, 7⟩] raceDB ≤ 1 :=
  ⟨by decide,
   referral_credit_at_most_once_sequential (1/2) 10
     [⟨true, 0, 5⟩, ⟨true, 0, 6⟩, ⟨false, 7, 7⟩] raceDB (by decide)⟩

/-- C1 (counterexample): two overlapping engine passes that both read
the selection before either writes — exactly the race §4.2/§8 claim to
be safe — credit the same PendingReferral twice: the referrer ends with
`confirmedReferrals = 2` and balance `2 × reward` (reward ½, balance 1),
because the pending-record transition is an update filtered on `_id`
alone, not conditioned on the record still being pending. -/
theorem racing_confirmation_passes_credit_twice :
    (findUser raceDB 1).map (fun u => (u.confirmedReferrals, u.balance)) =
      some (0, 0) ∧
    (findUser (runOnSnapshot (1/2) 6
        (confirmPendingReferrals true 0 (1/2) 5 raceDB).1
        (selectPendings true 0 raceDB)).1 1).map
      (fun u => (u.confirmedReferrals, u.balance)) = some (2, 1) := by
  constructor
  · rfl
  · with_unfolding_all rfl

/-- Lemma: `updUser` does not decrease an account's spendable-plus-locked sum
when the update itself does not. -/
theorem sumOf_updUser_ge (db : DB) (t uid : Nat) (f : User → User)
    (hf : ∀ u, (f u).telegramId = u.telegramId)
    (hval : ∀ u, findUser db t = some u →
      u.balance + u.balanceLocked ≤ (f u).balance + (f u).balanceLocked) :
    sumOf db uid ≤ sumOf (updUser db t f) uid := by
  unfold sumOf
  rw [findUser_updUser db t uid f hf]
  by_cases h : t = uid
  · rw [if_pos h]
    subst h
    cases hu : findUser db t with
    | none => exact le_refl _
    | some u => exact hval u hu
  · rw [if_neg h]

/-- Lemma: `updUser` keeps all monetary fields non-negative when the update
does. -/
theorem nonneg_updUser (db : DB) (t : Nat) (f : User → User)
    (h : NonnegDB db)
    (hval : ∀ u, findUser db t = some u →
      0 ≤ (f u).balance ∧ 0 ≤ (f u).balanceLocked) :
    NonnegDB (updUser db t f) := by
  refine ⟨?_, h.2⟩
  intro b hb
  rcases mem_updateFirst _ f db.users b hb with hmem | ⟨a, ha, rfl⟩
  · exact h.1 b hmem
  · exact hval a ha

/-- Creating a missing profile cannot decrease any account's sum (the
fresh record starts at 0/0). -/
theorem sumOf_ensureUserProfile_ge (db : DB) (uid2 : Nat) (code : String)
    (uid : Nat) :
    sumOf db uid ≤ sumOf (ensureUserProfile db uid2 code) uid := by
  unfold ensureUserProfile
  cases h : findUser db uid2 with
  | some u => exact le_refl _
  | none =>
    unfold sumOf findUser
    rw [List.find?_append]
    cases h2 : db.users.find? (fun u => u.telegramId == uid) with
    | some u => exact le_refl _
    | none =>
      simp only [Option.none_or]
      cases h3 : List.find? (fun u => u.telegramId == uid)
          ([{ telegramId := uid2, referralCode := code, balance := 0,
              confirmedReferrals := 0 }] : List User) with
      | none => exact le_refl _
      | some v =>
        have hv := List.mem_singleton.mp (List.mem_of_find?_eq_some h3)
        subst hv
        simp

/-- Creating a missing profile keeps the state non-negative. -/
theorem nonneg_ensureUserProfile (db : DB) (uid2 : Nat) (code : String)
    (h : NonnegDB db) : NonnegDB (ensureUserProfile db uid2 code) := by
  unfold ensureUserProfile
  cases hu : findUser db uid2 with
  | some u => exact h
  | none =>
    refine ⟨?_, h.2⟩
    intro b hb
    rcases List.mem_append.mp hb with hmem | hmem
    · exact h.1 b hmem
    · rw [List.mem_singleton.mp hmem]
      norm_num

/-- Lemma: `processOne` cannot decrease any account's sum when the reward is
non-negative. -/
theorem sumOf_processOne_ge (reward : ℚ) (now : Nat) (db : DB)
    (p : PendingReferral) (uid : Nat) (hr : 0 ≤ reward) :
    sumOf db uid ≤ sumOf (processOne reward now db p).1 uid := by
  unfold processOne
  split
  · exact le_refl _
  · split
    · exact le_refl _
    · split
      · exact le_refl _
      · refine sumOf_updUser_ge db p.referrerId uid (creditStamp reward)
          (fun _ => rfl) ?_
        intro v _
        show v.balance + v.balanceLocked ≤
          (v.balance + reward) + v.balanceLocked
        linarith

/-- A whole batch run cannot decrease any account's sum. -/
theorem sumOf_runOnSnapshot_ge (reward : ℚ) (now : Nat) (hr : 0 ≤ reward) :
    ∀ (snap : List PendingReferral) (db : DB) (uid : Nat),
      sumOf db uid ≤ sumOf (runOnSnapshot reward now db snap).1 uid := by
  intro snap
  induction snap with
  | nil => intro db uid; exact le_refl _
  | cons p ps ih =>
    intro db uid
    rw [runOnSnapshot_cons_fst]
    exact le_trans (sumOf_processOne_ge reward now db p uid hr)
      (ih _ uid)

/-- Lemma: `processOne` keeps the state non-negative. -/
theorem nonneg_processOne (reward : ℚ) (now : Nat) (db : DB)
    (p : PendingReferral) (hr : 0 ≤ reward) (h : NonnegDB db) :
    NonnegDB (processOne reward now db p).1 := by
  unfold processOne
  split
  · exact h
  · split
    · exact h
    · split
      · exact h
      · show NonnegDB { setPendingConfirmed
          (updUser db p.referrerId (creditStamp reward)) p.id now
            with refs := _ }
        have h1 : NonnegDB (updUser db p.referrerId (creditStamp reward)) := by
          refine nonneg_updUser db p.referrerId (creditStamp reward) h ?_
          intro v hv
          have hvmem : v ∈ db.users := List.mem_of_find?_eq_some hv
          obtain ⟨hb, hl⟩ := h.1 v hvmem
          exact ⟨by show 0 ≤ v.balance + reward; linarith, hl⟩
        exact h1

/-- A whole batch run keeps the state non-negative. -/
theorem nonneg_runOnSnapshot (reward : ℚ) (now : Nat) (hr : 0 ≤ reward) :
    ∀ (snap : List PendingReferral) (db : DB), NonnegDB db →
      NonnegDB (runOnSnapshot reward now db snap).1 := by
  intro snap
  induction snap with
  | nil => intro db h; exact h
  | cons p ps ih =>
    intro db h
    rw [runOnSnapshot_cons_fst]
    exact ih _ (nonneg_processOne reward now db p hr h)

/-- Lemma: `processOne` never changes which identities the pending records
refer to, hence the per-referred count. -/
theorem pendingCountFor_processOne (reward : ℚ) (now : Nat) (db : DB)
    (p : PendingReferral) (x : Nat) :
    pendingCountFor (processOne reward now db p).1 x = pendingCountFor db x := by
  unfold processOne
  split
  · exact countP_updateFirst (fun r => r.referredId == x)
      (fun r => r.id == p.id) (invalidStamp "self_referral")
      (fun _ => rfl) db.pendings
  · split
    · exact countP_updateFirst (fun r => r.referredId == x)
        (fun r => r.id == p.id) (invalidStamp "no_user_record")
        (fun _ => rfl) db.pendings
    · split
      · exact countP_updateFirst (fun r => r.referredId == x)
          (fun r => r.id == p.id) (invalidStamp "no_referrer_record")
          (fun _ => rfl) db.pendings
      · exact countP_updateFirst (fun r => r.referredId == x)
          (fun r => r.id == p.id) (confirmStamp now)
          (fun _ => rfl) db.pendings

/-- A batch run preserves the per-referred pending count. -/
theorem pendingCountFor_runOnSnapshot (reward : ℚ) (now : Nat) :
    ∀ (snap : List PendingReferral) (db : DB) (x : Nat),
      pendingCountFor (runOnSnapshot reward now db snap).1 x =
        pendingCountFor db x := by
  intro snap
  induction snap with
  | nil => intro db x; rfl
  | cons p ps ih =>
    intro db x
    rw [runOnSnapshot_cons_fst, ih, pendingCountFor_processOne]

theorem pendings_ensureUserProfile (db : DB) (uid : Nat) (code : String) :
    (ensureUserProfile db uid code).pendings = db.pendings := by
  unfold ensureUserProfile
  cases findUser db uid <;> rfl

theorem refs_ensureUserProfile (db : DB) (uid : Nat) (code : String) :
    (ensureUserProfile db uid code).refs = db.refs := by
  unfold ensureUserProfile
  cases findUser db uid <;> rfl

theorem pendings_startWithdrawFlow (minW : ℚ) (now : Nat) (db : DB)
    (uid : Nat) :
    (startWithdrawFlow minW now db uid).pendings = db.pendings := by
  unfold startWithdrawFlow
  split
  · rfl
  · split
    · rfl
    · split <;> rfl

theorem pendings_handleText (db : DB) (uid : Nat) (msg : String) (now : Nat)
    (code : String) :
    (handleText db uid msg now code).pendings = db.pendings := by
  unfold handleText
  cases findUser db uid with
  | none => exact pendings_ensureUserProfile db uid code
  | some u =>
    dsimp only
    split
    · split
      · rfl
      · split
        · split <;> rfl
        · split <;> rfl
    · split
      · split
        · rfl
        · split
          · split <;> rfl
          · split <;> rfl
      · split <;> rfl

theorem pendings_payCommand (db : DB) (wid adminId now : Nat) :
    (payCommand db wid adminId now).db.pendings = db.pendings := by
  unfold payCommand
  cases db.withdrawals.find?
    (fun w => w.id == wid && w.status == WStatus.pending) <;> rfl

theorem pendings_cancelWithdrawCommand (db : DB) (wid now : Nat) :
    (cancelWithdrawCommand db wid now).db.pendings = db.pendings := by
  unfold cancelWithdrawCommand
  cases db.withdrawals.find?
    (fun w => w.id == wid && w.status == WStatus.pending) <;> rfl

theorem pendings_adminCredit (db : DB) (t : Option Nat) (a : Option ℚ) :
    (adminCredit db t a).db.pendings = db.pendings := by
  unfold adminCredit
  split
  · rfl
  · split
    · rfl
    · split
      · rfl
      · split <;> rfl

theorem sumOf_startWithdrawFlow_ge (minW : ℚ) (now : Nat) (db : DB)
    (uid uid2 : Nat) :
    sumOf db uid2 ≤ sumOf (startWithdrawFlow minW now db uid) uid2 := by
  unfold startWithdrawFlow
  cases hu : findUser db uid with
  | none => exact le_refl _
  | some u =>
    dsimp only
    by_cases h1 : 0 < u.balanceLocked
    · rw [if_pos h1]
    · rw [if_neg h1]
      by_cases h2 : u.balance < minW
      · rw [if_pos h2]
      · rw [if_neg h2]
        refine sumOf_updUser_ge db uid uid2 _ ?hfsw ?hvsw
        case hfsw => intro v; rfl
        case hvsw =>
          intro v hv2
          have hvu := Option.some.inj (hu.symm.trans hv2)
          subst hvu
          show u.balance + u.balanceLocked ≤
            (u.balance - u.balance) + u.balance
          have hle := not_lt.mp h1
          linarith

theorem sumOf_handleText_ge (db : DB) (uid : Nat) (msg : String)
    (now : Nat) (code : String) (uid2 : Nat) :
    sumOf db uid2 ≤ sumOf (handleText db uid msg now code) uid2 := by
  unfold handleText
  cases hu : findUser db uid with
  | none => exact sumOf_ensureUserProfile_ge db uid code uid2
  | some u =>
    dsimp only
    by_cases hb1 : u.awaitingUpiSetup
    · rw [if_pos hb1]
      by_cases hc1 : (msg.toLower == "cancel") = true
      · rw [if_pos hc1]
        refine sumOf_updUser_ge db uid uid2 _ ?hf1 ?hv1
        case hf1 => intro v; rfl
        case hv1 => intro v _; exact le_refl _
      · rw [if_neg hc1]
        by_cases hc2 : (msg.toLower == "confirm") = true
        · rw [if_pos hc2]
          cases u.draftUpiSetup with
          | none => exact le_refl _
          | some d =>
            refine sumOf_updUser_ge db uid uid2 _ ?hf2 ?hv2
            case hf2 => intro v; rfl
            case hv2 => intro v _; exact le_refl _
        · rw [if_neg hc2]
          by_cases hc3 : upiValid msg = true
          · rw [if_pos hc3]
            refine sumOf_updUser_ge db uid uid2 _ ?hf3 ?hv3
            case hf3 => intro v; rfl
            case hv3 => intro v _; exact le_refl _
          · rw [if_neg hc3]
    · rw [if_neg hb1]
      by_cases hb2 : u.awaitingWithdrawUPI
      · rw [if_pos hb2]
        by_cases hc1 : (msg.toLower == "cancel") = true
        · rw [if_pos hc1]
          refine sumOf_updUser_ge db uid uid2 _ ?hf4 ?hv4
          case hf4 => intro v; rfl
          case hv4 =>
            intro v hv2
            have hvu := Option.some.inj (hu.symm.trans hv2)
            subst hvu
            show u.balance + u.balanceLocked ≤
              (u.balance + u.balanceLocked) + 0
            linarith
        · rw [if_neg hc1]
          by_cases hc2 : (msg.toLower == "confirm") = true
          · rw [if_pos hc2]
            by_cases hc4 : (u.awaitingWithdrawUPIConfirm &&
                u.draftWithdrawUPI.isSome) = true
            · rw [if_pos hc4]
              refine sumOf_updUser_ge _ uid uid2 _ ?hf5 ?hv5
              case hf5 => intro v; rfl
              case hv5 => intro v _; exact le_refl _
            · rw [if_neg hc4]
          · rw [if_neg hc2]
            by_cases hc3 : upiValid msg = true
            · rw [if_pos hc3]
              refine sumOf_updUser_ge db uid uid2 _ ?hf6 ?hv6
              case hf6 => intro v; rfl
              case hv6 => intro v _; exact le_refl _
            · rw [if_neg hc3]
      · rw [if_neg hb2]
        by_cases hb3 : u.awaitingSupportMessage
        · rw [if_pos hb3]
          refine sumOf_updUser_ge db uid uid2 _ ?hf7 ?hv7
          case hf7 => intro v; rfl
          case hv7 => intro v _; exact le_refl _
        · rw [if_neg hb3]

theorem sumOf_handleStart_ge (db0 : DB) (fromId : Nat)
    (code payload : String) (now : Nat) (uid2 : Nat) :
    sumOf db0 uid2 ≤ sumOf (handleStart db0 fromId code payload now) uid2 := by
  unfold handleStart
  dsimp only
  by_cases h1 : (payload.startsWith "ref_") = true
  · rw [if_pos h1]
    cases h2 : (ensureUserProfile db0 fromId code).users.find?
        (fun u => u.referralCode == payload) with
    | none => exact sumOf_ensureUserProfile_ge db0 fromId code uid2
    | some referrer =>
      dsimp only
      by_cases h3 : referrer.telegramId ≠ fromId
      · rw [if_pos h3]
        split
        · exact sumOf_ensureUserProfile_ge db0 fromId code uid2
        · exact sumOf_ensureUserProfile_ge db0 fromId code uid2
      · rw [if_neg h3]
        exact sumOf_ensureUserProfile_ge db0 fromId code uid2
  · rw [if_neg h1]
    exact sumOf_ensureUserProfile_ge db0 fromId code uid2

theorem sumOf_payCommand_noop (db : DB) (wid adminId now : Nat)
    (h : pendingWdExists db wid = false) (uid2 : Nat) :
    sumOf db uid2 ≤ sumOf (payCommand db wid adminId now).db uid2 := by
  unfold payCommand
  cases hw : db.withdrawals.find?
      (fun w => w.id == wid && w.status == WStatus.pending) with
  | none => exact le_refl _
  | some w =>
    unfold pendingWdExists at h
    rw [hw] at h
    simp at h

theorem sumOf_cancelWithdraw_ge (db : DB) (wid now : Nat)
    (hinv : WdAmountInv db) (uid2 : Nat) :
    sumOf db uid2 ≤ sumOf (cancelWithdrawCommand db wid now).db uid2 := by
  unfold cancelWithdrawCommand
  cases hw : db.withdrawals.find?
      (fun w => w.id == wid && w.status == WStatus.pending) with
  | none => exact le_refl _
  | some w =>
    have hwmem : w ∈ db.withdrawals := List.mem_of_find?_eq_some hw
    have hwpred := List.find?_some hw
    simp only [Bool.and_eq_true, beq_iff_eq] at hwpred
    refine sumOf_updUser_ge _ w.userId uid2 _ ?hfcw ?hvcw
    case hfcw => intro v; rfl
    case hvcw =>
      intro v hv2
      have hv3 : findUser db w.userId = some v := hv2
      have hamt : w.amount = v.balanceLocked := hinv w hwmem hwpred.2 v hv3
      show v.balance + v.balanceLocked ≤ (v.balance + w.amount) + 0
      rw [hamt]
      linarith

theorem sumOf_adminCredit_ge (db : DB) (t : Option Nat) (a : Option ℚ)
    (hpos : ∀ q, a = some q → 0 ≤ q) (uid2 : Nat) :
    sumOf db uid2 ≤ sumOf (adminCredit db t a).db uid2 := by
  unfold adminCredit
  cases t with
  | none => exact le_refl _
  | some t0 =>
    cases a with
    | none => exact le_refl _
    | some q =>
      dsimp only
      by_cases hz : q = 0
      · rw [if_pos hz]
      · rw [if_neg hz]
        cases hu : findUser db t0 with
        | none => exact le_refl _
        | some u0 =>
          refine sumOf_updUser_ge db t0 uid2 _ ?hfcr ?hvcr
          case hfcr => intro v; rfl
          case hvcr =>
            intro v _
            have hq := hpos q rfl
            show v.balance + v.balanceLocked ≤
              (v.balance + q) + v.balanceLocked
            linarith

theorem nonneg_startWithdrawFlow (minW : ℚ) (now : Nat) (db : DB)
    (uid : Nat) (h : NonnegDB db) :
    NonnegDB (startWithdrawFlow minW now db uid) := by
  unfold startWithdrawFlow
  cases hu : findUser db uid with
  | none => exact h
  | some u =>
    dsimp only
    by_cases h1 : 0 < u.balanceLocked
    · rw [if_pos h1]; exact h
    · rw [if_neg h1]
      by_cases h2 : u.balance < minW
      · rw [if_pos h2]; exact h
      · rw [if_neg h2]
        refine nonneg_updUser db uid _ h ?_
        intro v hv2
        have hvu := Option.some.inj (hu.symm.trans hv2)
        subst hvu
        have hmem : u ∈ db.users := List.mem_of_find?_eq_some hv2
        refine ⟨?_, (h.1 u hmem).1⟩
        show (0 : ℚ) ≤ u.balance - u.balance
        rw [sub_self]

theorem nonneg_handleText (db : DB) (uid : Nat) (msg : String) (now : Nat)
    (code : String) (h : NonnegDB db) :
    NonnegDB (handleText db uid msg now code) := by
  unfold handleText
  cases hu : findUser db uid with
  | none => exact nonneg_ensureUserProfile db uid code h
  | some u =>
    dsimp only
    have humem : u ∈ db.users := List.mem_of_find?_eq_some hu
    by_cases hb1 : u.awaitingUpiSetup
    · rw [if_pos hb1]
      by_cases hc1 : (msg.toLower == "cancel") = true
      · rw [if_pos hc1]
        refine nonneg_updUser db uid _ h ?_
        intro v hv
        exact h.1 v (List.mem_of_find?_eq_some hv)
      · rw [if_neg hc1]
        by_cases hc2 : (msg.toLower == "confirm") = true
        · rw [if_pos hc2]
          cases u.draftUpiSetup with
          | none => exact h
          | some d =>
            refine nonneg_updUser db uid _ h ?_
            intro v hv
            exact h.1 v (List.mem_of_find?_eq_some hv)
        · rw [if_neg hc2]
          by_cases hc3 : upiValid msg = true
          · rw [if_pos hc3]
            refine nonneg_updUser db uid _ h ?_
            intro v hv
            exact h.1 v (List.mem_of_find?_eq_some hv)
          · rw [if_neg hc3]; exact h
    · rw [if_neg hb1]
      by_cases hb2 : u.awaitingWithdrawUPI
      · rw [if_pos hb2]
        by_cases hc1 : (msg.toLower == "cancel") = true
        · rw [if_pos hc1]
          refine nonneg_updUser db uid _ h ?_
          intro v hv2
          have hvu := Option.some.inj (hu.symm.trans hv2)
          subst hvu
          refine ⟨?_, le_refl 0⟩
          show (0 : ℚ) ≤ u.balance + u.balanceLocked
          have h3 := h.1 u humem
          linarith [h3.1, h3.2]
        · rw [if_neg hc1]
          by_cases hc2 : (msg.toLower == "confirm") = true
          · rw [if_pos hc2]
            by_cases hc4 : (u.awaitingWithdrawUPIConfirm &&
                u.draftWithdrawUPI.isSome) = true
            · rw [if_pos hc4]
              have hdb1 : NonnegDB
                  { db with
                    withdrawals := db.withdrawals ++
                      [{ id := db.nextId, userId := uid,
                         upi := u.draftWithdrawUPI.getD "",
                         amount := u.balanceLocked, requestedAt := now,
                         status := .pending }],
                    nextId := db.nextId + 1 } := by
                refine ⟨h.1, ?_⟩
                intro w hw
                rcases List.mem_append.mp hw with hw1 | hw1
                · exact h.2 w hw1
                · rw [List.mem_singleton.mp hw1]
                  exact (h.1 u humem).2
              refine nonneg_updUser _ uid _ hdb1 ?_
              intro v hv
              exact hdb1.1 v (List.mem_of_find?_eq_some hv)
            · rw [if_neg hc4]; exact h
          · rw [if_neg hc2]
            by_cases hc3 : upiValid msg = true
            · rw [if_pos hc3]
              refine nonneg_updUser db uid _ h ?_
              intro v hv
              exact h.1 v (List.mem_of_find?_eq_some hv)
            · rw [if_neg hc3]; exact h
      · rw [if_neg hb2]
        by_cases hb3 : u.awaitingSupportMessage
        · rw [if_pos hb3]
          refine nonneg_updUser db uid _ h ?_
          intro v hv
          exact h.1 v (List.mem_of_find?_eq_some hv)
        · rw [if_neg hb3]; exact h

theorem nonneg_handleStart (db0 : DB) (fromId : Nat) (code payload : String)
    (now : Nat) (h : NonnegDB db0) :
    NonnegDB (handleStart db0 fromId code payload now) := by
  have he : NonnegDB (ensureUserProfile db0 fromId code) :=
    nonneg_ensureUserProfile db0 fromId code h
  unfold handleStart
  dsimp only
  by_cases h1 : (payload.startsWith "ref_") = true
  · rw [if_pos h1]
    cases h2 : (ensureUserProfile db0 fromId code).users.find?
        (fun u => u.referralCode == payload) with
    | none => exact he
    | some referrer =>
      dsimp only
      by_cases h3 : referrer.telegramId ≠ fromId
      · rw [if_pos h3]
        split
        · exact he
        · exact ⟨he.1, he.2⟩
      · rw [if_neg h3]; exact he
  · rw [if_neg h1]; exact he

theorem nonneg_payCommand (db : DB) (wid adminId now : Nat)
    (h : NonnegDB db) : NonnegDB (payCommand db wid adminId now).db := by
  unfold payCommand
  cases hw : db.withdrawals.find?
      (fun w => w.id == wid && w.status == WStatus.pending) with
  | none => exact h
  | some w =>
    dsimp only
    have h1 : NonnegDB (updWithdrawal db w.id (fun x =>
        { x with status := .paid, paidAt := some now,
                 paidBy := some adminId })) := by
      refine ⟨h.1, ?_⟩
      intro b hb
      rcases mem_updateFirst _ _ db.withdrawals b hb with hmem | ⟨a2, ha2, rfl⟩
      · exact h.2 b hmem
      · exact h.2 a2 (List.mem_of_find?_eq_some ha2)
    refine nonneg_updUser _ w.userId _ h1 ?_
    intro v hv
    exact ⟨(h1.1 v (List.mem_of_find?_eq_some hv)).1, le_refl 0⟩

theorem nonneg_cancelWithdraw (db : DB) (wid now : Nat)
    (h : NonnegDB db) : NonnegDB (cancelWithdrawCommand db wid now).db := by
  unfold cancelWithdrawCommand
  cases hw : db.withdrawals.find?
      (fun w => w.id == wid && w.status == WStatus.pending) with
  | none => exact h
  | some w =>
    dsimp only
    have hwamt : 0 ≤ w.amount := h.2 w (List.mem_of_find?_eq_some hw)
    have h1 : NonnegDB (updWithdrawal db w.id (fun x =>
        { x with status := .cancelled, cancelledAt := some now })) := by
      refine ⟨h.1, ?_⟩
      intro b hb
      rcases mem_updateFirst _ _ db.withdrawals b hb with hmem | ⟨a2, ha2, rfl⟩
      · exact h.2 b hmem
      · exact h.2 a2 (List.mem_of_find?_eq_some ha2)
    refine nonneg_updUser _ w.userId _ h1 ?_
    intro v hv
    have hv2 := (h1.1 v (List.mem_of_find?_eq_some hv)).1
    refine ⟨?_, le_refl 0⟩
    show (0 : ℚ) ≤ v.balance + w.amount
    linarith

theorem nonneg_adminCredit (db : DB) (t : Option Nat) (a : Option ℚ)
    (hpos : ∀ q, a = some q → 0 ≤ q) (h : NonnegDB db) :
    NonnegDB (adminCredit db t a).db := by
  unfold adminCredit
  cases t with
  | none => exact h
  | some t0 =>
    cases a with
    | none => exact h
    | some q =>
      dsimp only
      by_cases hz : q = 0
      · rw [if_pos hz]; exact h
      · rw [if_neg hz]
        cases hu : findUser db t0 with
        | none => exact h
        | some u0 =>
          refine nonneg_updUser db t0 _ h ?_
          intro v hv
          have hv2 := h.1 v (List.mem_of_find?_eq_some hv)
          have hq := hpos q rfl
          refine ⟨?_, hv2.2⟩
          show (0 : ℚ) ≤ v.balance + q
          linarith [hv2.1]

theorem pendingCountFor_ensure (db : DB) (uid : Nat) (code : String)
    (x : Nat) :
    pendingCountFor (ensureUserProfile db uid code) x = pendingCountFor db x := by
  unfold pendingCountFor
  rw [pendings_ensureUserProfile]

theorem pendingCountFor_handleStart_le (db0 : DB) (fromId : Nat)
    (code payload : String) (now x : Nat)
    (h : pendingCountFor db0 x ≤ 1) :
    pendingCountFor (handleStart db0 fromId code payload now) x ≤ 1 := by
  have he : pendingCountFor (ensureUserProfile db0 fromId code) x ≤ 1 := by
    rw [pendingCountFor_ensure]; exact h
  unfold handleStart
  dsimp only
  by_cases h1 : (payload.startsWith "ref_") = true
  · rw [if_pos h1]
    cases h2 : (ensureUserProfile db0 fromId code).users.find?
        (fun u => u.referralCode == payload) with
    | none => exact he
    | some referrer =>
      dsimp only
      by_cases h3 : referrer.telegramId ≠ fromId
      · rw [if_pos h3]
        by_cases h4 : (((ensureUserProfile db0 fromId code).pendings.find?
              (fun p => p.referredId == fromId)).isSome ||
            ((ensureUserProfile db0 fromId code).refs.find?
              (fun r => r.referredId == fromId)).isSome) = true
        · rw [if_pos h4]; exact he
        · rw [if_neg h4]
          have hnone : (ensureUserProfile db0 fromId code).pendings.find?
              (fun p => p.referredId == fromId) = none := by
            cases hfo : (ensureUserProfile db0 fromId code).pendings.find?
                (fun p => p.referredId == fromId) with
            | none => rfl
            | some v => rw [hfo] at h4; simp at h4
          show List.countP (fun p => p.referredId == x)
            ((ensureUserProfile db0 fromId code).pendings ++ [_]) ≤ 1
          rw [List.countP_append]
          by_cases hx : fromId = x
          · subst hx
            have hz : List.countP (fun p => p.referredId == fromId)
                (ensureUserProfile db0 fromId code).pendings = 0 := by
              rw [List.countP_eq_zero]
              intro a ha
              exact List.find?_eq_none.mp hnone a ha
            rw [hz, zero_add]
            rw [List.countP_cons]
            cases hq : (fun p : PendingReferral => p.referredId == fromId)
                { id := (ensureUserProfile db0 fromId code).nextId,
                  referredId := fromId,
                  referrerId := referrer.telegramId,
                  referralCode := payload, createdAt := now,
                  status := .pending } <;>
              simp [List.countP_nil, hq]
          · have hz2 : List.countP (fun p => p.referredId == x)
                ([{ id := (ensureUserProfile db0 fromId code).nextId,
                    referredId := fromId,
                    referrerId := referrer.telegramId,
                    referralCode := payload, createdAt := now,
                    status := .pending }] : List PendingReferral) = 0 := by
              simp [List.countP_cons, hx]
            rw [hz2]
            simpa using he
      · rw [if_neg h3]; exact he
  · rw [if_neg h1]; exact he

/-- C3 (amended): outside an admin credit with a negative amount, every
operation of the system preserves non-negativity of all balances,
locked amounts and withdrawal amounts (given a non-negative configured
reward). -/
theorem nonnegativity_preserved_outside_negative_credit (minW reward : ℚ)
    (cutoff now : Nat) (op : Op) (db : DB)
    (hneg : ¬ IsNegCredit op) (hr : 0 ≤ reward) (h : NonnegDB db) :
    NonnegDB (applyOp minW reward cutoff now op db) := by
  cases op with
  | start fromId newCode payload =>
    exact nonneg_handleStart db fromId newCode payload now h
  | withdraw uid => exact nonneg_startWithdrawFlow minW now db uid h
  | text uid msg newCode => exact nonneg_handleText db uid msg now newCode h
  | setupi uid =>
    refine nonneg_updUser db uid _ h ?_
    intro v hv
    exact h.1 v (List.mem_of_find?_eq_some hv)
  | support uid =>
    refine nonneg_updUser db uid _ h ?_
    intro v hv
    exact h.1 v (List.mem_of_find?_eq_some hv)
  | pay wid adminId => exact nonneg_payCommand db wid adminId now h
  | cancelWithdraw wid => exact nonneg_cancelWithdraw db wid now h
  | credit t a =>
    refine nonneg_adminCredit db t a ?_ h
    intro q hq
    subst hq
    have hn : ¬ (q < 0) := hneg
    exact not_lt.mp hn
  | confirmJob force =>
    exact nonneg_runOnSnapshot reward now hr _ db h

/-- Witness for the amended C3: a positive admin credit on the fresh
zero-balance state keeps everything non-negative. -/
theorem nonnegativity_preserved_witness :
    NonnegDB (applyOp 50 1 0 3 (Op.credit (some 9) (some 5)) freshDB) :=
  nonnegativity_preserved_outside_negative_credit 50 1 0 3
    (Op.credit (some 9) (some 5)) freshDB
    (fun hlt => (by decide : ¬ ((5 : ℚ) < 0)) hlt) (by decide)
    ⟨by decide, by decide⟩

/-- C5: for every account, `balance + balanceLocked` never decreases
across any single operation step, except via a successful withdrawal
settlement (`/pay` finding its pending withdrawal) or an admin credit
with a negative amount — under the ledger invariant that a pending
withdrawal's amount equals its owner's locked balance, with a
non-negative reward. -/
theorem balance_plus_locked_never_decreases (minW reward : ℚ)
    (cutoff now : Nat) (op : Op) (db : DB) (uid : Nat)
    (hr : 0 ≤ reward) (hinv : WdAmountInv db)
    (hsettle : ¬ IsSuccessfulSettle db op) (hneg : ¬ IsNegCredit op) :
    sumOf db uid ≤ sumOf (applyOp minW reward cutoff now op db) uid := by
  cases op with
  | start fromId newCode payload =>
    exact sumOf_handleStart_ge db fromId newCode payload now uid
  | withdraw uid0 => exact sumOf_startWithdrawFlow_ge minW now db uid0 uid
  | text uid0 msg newCode =>
    exact sumOf_handleText_ge db uid0 msg now newCode uid
  | setupi uid0 =>
    refine sumOf_updUser_ge db uid0 uid _ ?hfsu ?hvsu
    case hfsu => intro v; rfl
    case hvsu => intro v _; exact le_refl _
  | support uid0 =>
    refine sumOf_updUser_ge db uid0 uid _ ?hfsp ?hvsp
    case hfsp => intro v; rfl
    case hvsp => intro v _; exact le_refl _
  | pay wid adminId =>
    have hs : ¬ (pendingWdExists db wid = true) := hsettle
    have hs2 : pendingWdExists db wid = false := by
      cases hb : pendingWdExists db wid with
      | false => rfl
      | true => exact absurd hb hs
    exact sumOf_payCommand_noop db wid adminId now hs2 uid
  | cancelWithdraw wid => exact sumOf_cancelWithdraw_ge db wid now hinv uid
  | credit t a =>
    refine sumOf_adminCredit_ge db t a ?_ uid
    intro q hq
    subst hq
    have hn : ¬ (q < 0) := hneg
    exact not_lt.mp hn
  | confirmJob force =>
    exact sumOf_runOnSnapshot_ge reward now hr _ db uid

/-- Witness for C5: drafting a withdrawal on the 100-balance account
conserves its spendable-plus-locked sum. -/
theorem balance_plus_locked_never_decreases_witness :
    sumOf freshWealthyDB 8 ≤
      sumOf (applyOp 50 1 0 3 (Op.withdraw 8) freshWealthyDB) 8 :=
  balance_plus_locked_never_decreases 50 1 0 3 (Op.withdraw 8)
    freshWealthyDB 8 (by decide)
    (by intro w hw; simp [freshWealthyDB] at hw)
    not_false not_false

/-- C7 (amended): at most one PendingReferral per referred identity is
maintained behaviorally, not by a schema constraint: every operation
preserves "at most one pending referral for `x`", and a referral start
for an identity that already has a pending or confirmed referral stores
nothing. -/
theorem pending_referral_unique_per_referred_behaviorally
    (minW reward : ℚ) (cutoff now : Nat) (op : Op) (db : DB) (x : Nat) :
    (pendingCountFor db x ≤ 1 →
      pendingCountFor (applyOp minW reward cutoff now op db) x ≤ 1) ∧
    (∀ (fromId : Nat) (code payload : String) (now2 : Nat),
      ((db.pendings.find? (fun p => p.referredId == fromId)).isSome = true ∨
       (db.refs.find? (fun r => r.referredId == fromId)).isSome = true) →
      (handleStart db fromId code payload now2).pendings = db.pendings) := by
  constructor
  · intro h
    cases op with
    | start fromId newCode payload =>
      exact pendingCountFor_handleStart_le db fromId newCode payload now x h
    | withdraw uid =>
      dsimp only [applyOp]
      unfold pendingCountFor
      rw [pendings_startWithdrawFlow]
      exact h
    | text uid msg newCode =>
      dsimp only [applyOp]
      unfold pendingCountFor
      rw [pendings_handleText]
      exact h
    | setupi uid => exact h
    | support uid => exact h
    | pay wid adminId =>
      dsimp only [applyOp]
      unfold pendingCountFor
      rw [pendings_payCommand]
      exact h
    | cancelWithdraw wid =>
      dsimp only [applyOp]
      unfold pendingCountFor
      rw [pendings_cancelWithdrawCommand]
      exact h
    | credit t a =>
      dsimp only [applyOp]
      unfold pendingCountFor
      rw [pendings_adminCredit]
      exact h
    | confirmJob force =>
      exact le_trans (le_of_eq (pendingCountFor_runOnSnapshot reward now _ db x)) h
  · intro fromId code payload now2 hex
    unfold handleStart
    dsimp only
    by_cases h1 : (payload.startsWith "ref_") = true
    · rw [if_pos h1]
      cases h2 : (ensureUserProfile db fromId code).users.find?
          (fun u => u.referralCode == payload) with
      | none => exact pendings_ensureUserProfile db fromId code
      | some referrer =>
        dsimp only
        by_cases h3 : referrer.telegramId ≠ fromId
        · rw [if_pos h3]
          have h4 : (((ensureUserProfile db fromId code).pendings.find?
                (fun p => p.referredId == fromId)).isSome ||
              ((ensureUserProfile db fromId code).refs.find?
                (fun r => r.referredId == fromId)).isSome) = true := by
            rw [pendings_ensureUserProfile, refs_ensureUserProfile,
              Bool.or_eq_true]
            exact hex
          rw [if_pos h4]
          exact pendings_ensureUserProfile db fromId code
        · rw [if_neg h3]
          exact pendings_ensureUserProfile db fromId code
    · rw [if_neg h1]
      exact pendings_ensureUserProfile db fromId code

/-- Witness for the amended C7: a second referral attempt for the
already-referred identity 2 stores nothing and keeps the count at one. -/
theorem pending_referral_unique_witness :
    pendingCountFor (applyOp 50 1 0 9
      (Op.start 2 "ref_new" "ref_r") raceDB) 2 ≤ 1 ∧
    (handleStart raceDB 2 "ref_new" "ref_r" 9).pendings = raceDB.pendings := by
  have h := pending_referral_unique_per_referred_behaviorally 50 1 0 9
    (Op.start 2 "ref_new" "ref_r") raceDB 2
  exact ⟨h.1 (by decide), h.2 2 "ref_new" "ref_r" 9 (Or.inl (by decide))⟩

end GrowEarn
